import Mathlib

/-!
# msfs2020-go: the websocket hub and the per-connection pipeline

A shallow embedding of `simconnect-ws/websockets/websockets.go`,
`simconnect-ws/websockets/connection.go` and the command dispatcher `handleClientMessage`
of `simconnect-ws/main.go`.

Modelling conventions.

* A `[]byte` is a list of byte values (`Nat`, the values a real slice holds are `< 256`;
  nothing in the embedded code does arithmetic on a byte).
* A `*Connection` is its pointer identity, a `Nat`.
* A Go channel is the FIFO list of the values sent on it and not yet received, plus its
  `closed` flag.  A channel's capacity only decides how long a sender waits, never what is
  delivered or in which order, so it is not part of the model: a send that has to wait is
  the same append, later.
* A send on a closed channel and a close of a closed channel panic; nothing in the package
  recovers, so the process dies.  The world keeps the panic in `panicked` and is frozen
  from then on.
* `select` picks among its ready cases in an unspecified way; a schedule (`List Action`)
  lists the picks.
* The calls into the Go library (`bytes.Buffer`, `bytes.Replace`, `bytes.TrimSpace`, and the
  `utf8` and `unicode` functions under it, the `strings` functions of the origin check) are
  embedded as functions on lists that follow the library code.  `net.ParseIP`,
  `json.Unmarshal` and the Unicode part of `strings.ToLower` are parameters.
* A goroutine that waits at a channel operation is a position of its own (`ReaderPc`,
  `WriterPc`); the step that completes the operation is the other side taking part.
-/

namespace Websockets

/-- The Go type `[]byte`. -/
abbrev Bytes := List Nat

/-- The identity of a `*Connection`. -/
abbrev ConnPtr := Nat

/-- The two run-time panics the channel operations of the package can raise. -/
inductive Panic where
  | sendOnClosedChannel
  | closeOfClosedChannel
  deriving DecidableEq, Repr

/-- A `chan []byte`: pending values in FIFO order and the closed flag. -/
structure Chan where
  queue : List Bytes
  closed : Bool
  deriving DecidableEq, Repr

/-- The channel `make(chan []byte, n)` returns: open and empty. -/
def Chan.make : Chan := { queue := [], closed := false }

/-- The statement `ch <- v`. -/
def Chan.send (ch : Chan) (v : Bytes) : Except Panic Chan :=
  if ch.closed then .error .sendOnClosedChannel
  else .ok { ch with queue := ch.queue ++ [v] }

/-- The statement `close(ch)`. -/
def Chan.close (ch : Chan) : Except Panic Chan :=
  if ch.closed then .error .closeOfClosedChannel
  else .ok { ch with closed := true }

/-- The expression `v, ok := <-ch` when it is ready: `some (some v, ch')` hands over the
oldest pending value, `some (none, ch)` is the `ok = false` of a closed and drained channel,
`none` means the receive is not ready (open and empty). -/
def Chan.recv (ch : Chan) : Option (Option Bytes × Chan) :=
  match ch.queue with
  | v :: rest => some (some v, { ch with queue := rest })
  | [] => if ch.closed then some (none, ch) else none

/-- The key set of the Go map `map[*Connection]bool` (the code only ever stores `true`).
Go maps hold each key once; the list order stands for one iteration order of `range`. -/
structure ConnMap where
  keys : List ConnPtr
  nodup : keys.Nodup

/-- The map `make(map[*Connection]bool)` returns. -/
def ConnMap.empty : ConnMap := { keys := [], nodup := List.nodup_nil }

/-- The lookup `_, ok := m[c]`. -/
def ConnMap.contains (m : ConnMap) (c : ConnPtr) : Bool := decide (c ∈ m.keys)

/-- The assignment `m[c] = true`. -/
def ConnMap.insert (m : ConnMap) (c : ConnPtr) : ConnMap :=
  if h : c ∈ m.keys then m
  else { keys := c :: m.keys, nodup := List.nodup_cons.mpr ⟨h, m.nodup⟩ }

/-- The statement `delete(m, c)`. -/
def ConnMap.delete (m : ConnMap) (c : ConnPtr) : ConnMap :=
  { keys := m.keys.erase c, nodup := m.nodup.erase c }

/-- The fields of `Websocket` the coordination loop works on.  `register` and `unregister`
are unbuffered, so a value on them is handed over in the very step that takes it and the
channels hold no state of their own. -/
structure Websocket where
  connections : ConnMap
  broadcast : List Bytes
  NewConnection : List ConnPtr

/-- The hub together with the `Send` channel of every `Connection` object and the panic
that killed the process, if any. -/
structure World where
  hub : Websocket
  Send : ConnPtr → Chan
  panicked : Option Panic

/-- The world after the `Send` field of connection `c` has become `ch`. -/
def World.setSend (w : World) (c : ConnPtr) (ch : Chan) : World :=
  { w with Send := Function.update w.Send c ch }

/-- The state right after `New`: nothing registered, nothing queued; every `Connection`
that `Serve` will build starts with `Send: make(chan []byte, 256)`. -/
def New : World :=
  { hub := { connections := ConnMap.empty, broadcast := [], NewConnection := [] }
    Send := fun _ => Chan.make
    panicked := none }

/-- `Websocket.Broadcast`, with `buf` the result of `json.Marshal(pkt)`:
`s.broadcast <- buf`. -/
def Broadcast (w : World) (buf : Bytes) : World :=
  { w with hub := { w.hub with broadcast := w.hub.broadcast ++ [buf] } }

/-- `Websocket.Run`, `case c := <-h.register`. -/
def runRegister (w : World) (c : ConnPtr) : World :=
  { w with hub := { w.hub with
      connections := w.hub.connections.insert c
      NewConnection := w.hub.NewConnection ++ [c] } }

/-- `Websocket.Run`, `case c := <-h.unregister`. -/
def runUnregister (w : World) (c : ConnPtr) : World :=
  if w.hub.connections.contains c then
    let w1 : World := { w with hub := { w.hub with connections := w.hub.connections.delete c } }
    match (w1.Send c).close with
    | .ok ch => w1.setSend c ch
    | .error p => { w1 with panicked := some p }
  else w

/-- The loop `for c := range h.connections { c.Send <- packet }` over the keys still to
visit. -/
def fanOut (packet : Bytes) : List ConnPtr → World → World
  | [], w => w
  | c :: cs, w =>
    match (w.Send c).send packet with
    | .ok ch => fanOut packet cs (w.setSend c ch)
    | .error p => { w with panicked := some p }

/-- `Websocket.Run`, `case packet := <-h.broadcast`.  The case is ready only when a packet
is pending; picked on an empty queue nothing happens. -/
def runBroadcast (w : World) : World :=
  match w.hub.broadcast with
  | [] => w
  | packet :: rest =>
    fanOut packet w.hub.connections.keys { w with hub := { w.hub with broadcast := rest } }

/-- What can happen to the hub: a producer calls `Broadcast`, or the `select` of `Run`
takes one of its three cases (`Serve` and `readPump` are the senders on `register` and
`unregister`). -/
inductive Action where
  | Broadcast (buf : Bytes)
  | register (c : ConnPtr)
  | unregister (c : ConnPtr)
  | broadcast
  deriving DecidableEq, Repr

/-- One action; a process that has panicked does nothing any more. -/
def step (w : World) (a : Action) : World :=
  match w.panicked with
  | some _ => w
  | none =>
    match a with
    | .Broadcast buf => Broadcast w buf
    | .register c => runRegister w c
    | .unregister c => runUnregister w c
    | .broadcast => runBroadcast w

/-- A whole schedule, first action first. -/
def run (w : World) (as : List Action) : World := as.foldl step w

/-- The payloads handed to `Broadcast` along a schedule, in call order. -/
def calls : List Action → List Bytes
  | [] => []
  | .Broadcast buf :: as => buf :: calls as
  | _ :: as => calls as

/-- The connections a schedule registers, in order, with repetitions. -/
def registrations : List Action → List ConnPtr
  | [] => []
  | .register c :: as => c :: registrations as
  | _ :: as => registrations as

/-! ## The aggregator: `Connection.writer` -/

/-- The byte `'\n'`. -/
def newlineByte : Nat := 10

/-- `bytes.IndexByte(b, c)`: the index of the first `c` in `b`; `none` stands for `-1`. -/
def IndexByte : Bytes → Nat → Option Nat
  | [], _ => none
  | x :: xs, c => if x = c then some 0 else (IndexByte xs c).map (· + 1)

/-- A `bytes.Buffer`, as its unread bytes `b.buf[b.off:]`. -/
structure Buffer where
  unread : Bytes
  deriving DecidableEq, Repr

/-- `Buffer.Write(p)` (and `Buffer.WriteString`): append `p` to the unread bytes. -/
def Buffer.Write (b : Buffer) (p : Bytes) : Buffer := { unread := b.unread ++ p }

/-- `Buffer.ReadBytes(delim)`: the bytes up to and including the first `delim`, with
`err == nil` (`true`); without a `delim` in the buffer, everything that is left, with
`err == io.EOF` (`false`).  The bytes returned are consumed in both cases. -/
def Buffer.ReadBytes (b : Buffer) (delim : Nat) : Bytes × Bool × Buffer :=
  match IndexByte b.unread delim with
  | some i => (b.unread.take (i + 1), true, { unread := b.unread.drop (i + 1) })
  | none => (b.unread, false, { unread := [] })

/-- The state of one `Connection.writer` goroutine: its local `buf`, the chunks it has sent
on `c.SendQueue` so far, oldest first (the channel is unbuffered, `writePump` takes them in
this order), and whether it has returned.  `close(c.SendQueue)` is executed only by the
writer, right before it returns, so `returned` is also the closed flag of `c.SendQueue`. -/
structure WriterState where
  buf : Buffer
  SendQueue : List Bytes
  returned : Bool
  deriving DecidableEq, Repr

/-- The writer as it starts: `var buf bytes.Buffer`, nothing sent. -/
def writerStart : WriterState := { buf := { unread := [] }, SendQueue := [], returned := false }

/-- The two cases of the `select` in `Connection.writer`: `message, ok := <-c.Send`
(`none` stands for `ok == false`) and `<-flushticker.C`. -/
inductive WriterEvent where
  | recv (message : Option Bytes)
  | tick
  deriving DecidableEq, Repr

/-- One turn of the loop of `Connection.writer`. -/
def Connection.writer (st : WriterState) (ev : WriterEvent) : WriterState :=
  if st.returned then st
  else
    match ev with
    | .recv none => { st with returned := true }
    | .recv (some message) =>
      { st with buf := (st.buf.Write message).Write [newlineByte] }
    | .tick =>
      match st.buf.ReadBytes newlineByte with
      | (message, true, buf1) => { st with buf := buf1, SendQueue := st.SendQueue ++ [message] }
      | (_, false, buf1) => { st with buf := buf1 }

/-- The loop of `Connection.writer` over a sequence of `select` outcomes. -/
def Connection.writerRun (st : WriterState) (evs : List WriterEvent) : WriterState :=
  evs.foldl Connection.writer st

/-- The receive case of `Connection.writer` taken against the `Send` channel of connection
`c` in the world; when the receive is not ready (or the writer has returned) nothing
happens. -/
def Connection.writerRecv (w : World) (c : ConnPtr) (st : WriterState) : World × WriterState :=
  if st.returned then (w, st)
  else
    match (w.Send c).recv with
    | none => (w, st)
    | some (m, ch) => (w.setSend c ch, Connection.writer st (.recv m))

/-- The payloads a sequence of writer events receives, in arrival order. -/
def received : List WriterEvent → List Bytes
  | [] => []
  | .recv (some m) :: evs => m :: received evs
  | _ :: evs => received evs

/-- A buffer content that is empty or ends with `'\n'`. -/
def EndsInNewline (s : Bytes) : Prop := s = [] ∨ s.getLast? = some newlineByte

/-- The bytes of `{"altitude":"1000","type":"plane"}`, what `json.Marshal` returns for the
map with `type` `"plane"` and `altitude` `"1000"` (it sorts the keys). -/
def planePacket : Bytes :=
  [123, 34, 97, 108, 116, 105, 116, 117, 100, 101, 34, 58, 34, 49, 48, 48, 48, 34, 44,
   34, 116, 121, 112, 101, 34, 58, 34, 112, 108, 97, 110, 101, 34, 125]

/-! ## The reader: `Connection.readPump` and the library calls it makes -/

/-- `utf8.RuneError`. -/
def RuneError : Nat := 0xFFFD

/-- `utf8.RuneSelf`: bytes below it are single-byte runes. -/
def RuneSelf : Nat := 0x80

/-- `utf8.UTFMax`. -/
def UTFMax : Nat := 4

/-- A UTF-8 continuation byte, `locb <= b <= hicb`. -/
def isContinuation (b : Nat) : Bool := decide (0x80 ≤ b) && decide (b ≤ 0xBF)

/-- `utf8.RuneStart(b)`: `b&0xC0 != 0x80`. -/
def RuneStart (b : Nat) : Bool := decide ((b / 64) % 4 ≠ 2)

/-- The size `x & 7` that the table `first` of package `utf8` gives for a leading byte:
1 for ASCII (`as`), 0 for a byte that cannot start a rune (`xx`). -/
def runeSize (p0 : Nat) : Nat :=
  if p0 < 0x80 then 1
  else if p0 < 0xC2 then 0
  else if p0 ≤ 0xDF then 2
  else if p0 ≤ 0xEF then 3
  else if p0 ≤ 0xF4 then 4
  else 0

/-- The entry `acceptRanges[x>>4]` for a leading byte: the range of the second byte. -/
def acceptRange (p0 : Nat) : Nat × Nat :=
  if p0 = 0xE0 then (0xA0, 0xBF)
  else if p0 = 0xED then (0x80, 0x9F)
  else if p0 = 0xF0 then (0x90, 0xBF)
  else if p0 = 0xF4 then (0x80, 0x8F)
  else (0x80, 0xBF)

/-- The body of `utf8.DecodeRune` after `n := len(p)` (at least 1), with `p0`, `b1`, `b2`,
`b3` the bytes `p[0]` to `p[3]`; each is read only after the length check that guards it. -/
def decodeBytes (n p0 b1 b2 b3 : Nat) : Nat × Nat :=
  if runeSize p0 = 1 then (p0, 1)
  else if runeSize p0 = 0 then (RuneError, 1)
  else if n < runeSize p0 then (RuneError, 1)
  else if b1 < (acceptRange p0).1 ∨ (acceptRange p0).2 < b1 then (RuneError, 1)
  else if runeSize p0 ≤ 2 then ((p0 % 32) * 64 + b1 % 64, 2)
  else if b2 < 0x80 ∨ 0xBF < b2 then (RuneError, 1)
  else if runeSize p0 ≤ 3 then ((p0 % 16) * 4096 + (b1 % 64) * 64 + b2 % 64, 3)
  else if b3 < 0x80 ∨ 0xBF < b3 then (RuneError, 1)
  else ((p0 % 8) * 262144 + (b1 % 64) * 4096 + (b2 % 64) * 64 + b3 % 64, 4)

/-- `utf8.DecodeRune(p)`: the first rune of `p` and its width in bytes; `(RuneError, 0)` for
an empty `p`, `(RuneError, 1)` for an invalid or truncated encoding. -/
def DecodeRune (p : Bytes) : Nat × Nat :=
  if p.length < 1 then (RuneError, 0)
  else decodeBytes p.length (p.getD 0 0) (p.getD 1 0) (p.getD 2 0) (p.getD 3 0)

/-- The backward scan of `utf8.DecodeLastRune`,
`for start--; start >= lim; start-- { if RuneStart(p[start]) { break } }` followed by
`if start < 0 { start = 0 }`; the argument is `start + 1`, the result the final `start`. -/
def lastRuneStart (p : Bytes) (lim : Nat) : Nat → Nat
  | 0 => 0
  | start + 1 =>
    if start < lim then start
    else if RuneStart (p.getD start 0) then start
    else lastRuneStart p lim start

/-- `utf8.DecodeLastRune(p)`: the last rune of `p` and its width. -/
def DecodeLastRune (p : Bytes) : Nat × Nat :=
  if p.length = 0 then (RuneError, 0)
  else
    let r := p.getD (p.length - 1) 0
    if r < RuneSelf then (r, 1)
    else
      let start := lastRuneStart p (p.length - UTFMax) (p.length - 1)
      let d := DecodeRune (p.drop start)
      if start + d.2 ≠ p.length then (RuneError, 1) else d

/-- `unicode.IsSpace(r)`: the Latin-1 spaces and the `White_Space` code points above. -/
def IsSpace (r : Nat) : Bool :=
  if r ≤ 0xFF then
    decide (r = 9 ∨ r = 10 ∨ r = 11 ∨ r = 12 ∨ r = 13 ∨ r = 32 ∨ r = 0x85 ∨ r = 0xA0)
  else
    decide (r = 0x1680 ∨ (0x2000 ≤ r ∧ r ≤ 0x200a) ∨ r = 0x2028 ∨ r = 0x2029 ∨ r = 0x202f
      ∨ r = 0x205f ∨ r = 0x3000)

/-- The table `asciiSpace` of package `bytes`: `'\t'`, `'\n'`, `'\v'`, `'\f'`, `'\r'`, `' '`. -/
def asciiSpace (c : Nat) : Bool :=
  decide (c = 9 ∨ c = 10 ∨ c = 11 ∨ c = 12 ∨ c = 13 ∨ c = 32)

/-- The loop of `bytes.indexFunc(s, f, truth)` from index `start`, where the list is
`s[start:]` plus the `skip` bytes of the rune just decoded that are still to step over;
`none` stands for `-1`. -/
def indexFuncFrom (f : Nat → Bool) (truth : Bool) : Bytes → Nat → Nat → Option Nat
  | [], _, _ => none
  | _ :: rest, skip + 1, start => indexFuncFrom f truth rest skip (start + 1)
  | b :: rest, 0, start =>
    let d := if b ≥ RuneSelf then DecodeRune (b :: rest) else (b, 1)
    if f d.1 = truth then some start
    else indexFuncFrom f truth rest (d.2 - 1) (start + 1)

/-- `bytes.indexFunc(s, f, truth)`. -/
def indexFunc (s : Bytes) (f : Nat → Bool) (truth : Bool) : Option Nat :=
  indexFuncFrom f truth s 0 0

/-- The loop of `bytes.lastIndexFunc(s, f, truth)` at index `i`, with `skip` bytes of the
rune just decoded still to step over. -/
def lastIndexFuncFrom (s : Bytes) (f : Nat → Bool) (truth : Bool) : Nat → Nat → Option Nat
  | 0, _ => none
  | i + 1, skip + 1 => lastIndexFuncFrom s f truth i skip
  | i + 1, 0 =>
    let d := if s.getD i 0 ≥ RuneSelf then DecodeLastRune (s.take (i + 1)) else (s.getD i 0, 1)
    if f d.1 = truth then some (i + 1 - d.2)
    else lastIndexFuncFrom s f truth i (d.2 - 1)

/-- `bytes.lastIndexFunc(s, f, truth)`. -/
def lastIndexFunc (s : Bytes) (f : Nat → Bool) (truth : Bool) : Option Nat :=
  lastIndexFuncFrom s f truth s.length 0

/-- `bytes.TrimLeftFunc(s, f)`. -/
def TrimLeftFunc (s : Bytes) (f : Nat → Bool) : Bytes :=
  match indexFunc s f false with
  | none => []
  | some i => s.drop i

/-- `bytes.TrimRightFunc(s, f)`. -/
def TrimRightFunc (s : Bytes) (f : Nat → Bool) : Bytes :=
  match lastIndexFunc s f false with
  | some i =>
    if s.getD i 0 ≥ RuneSelf then s.take (i + (DecodeRune (s.drop i)).2) else s.take (i + 1)
  | none => s.take 0

/-- `bytes.TrimFunc(s, f)`. -/
def TrimFunc (s : Bytes) (f : Nat → Bool) : Bytes := TrimRightFunc (TrimLeftFunc s f) f

/-- One of the two ASCII fast-path loops of `bytes.TrimSpace`, run over the bytes in the
order the loop visits them: `(true, rest)` when it meets a byte `>= RuneSelf` with `rest`
still unvisited (that byte first), `(false, rest)` when it stops at an ASCII byte that is no
space or runs out of bytes. -/
def trimSpaceScan : Bytes → Bool × Bytes
  | [] => (false, [])
  | c :: rest =>
    if c ≥ RuneSelf then (true, c :: rest)
    else if asciiSpace c then trimSpaceScan rest
    else (false, c :: rest)

/-- `bytes.TrimSpace(s)`: the forward loop finds `start`, the backward loop (the same scan
over `s[start:]` reversed) finds `stop`; either falls back to `TrimFunc(_, unicode.IsSpace)`
on what it has not trimmed when it meets a non-ASCII byte. -/
def TrimSpace (s : Bytes) : Bytes :=
  match trimSpaceScan s with
  | (true, t) => TrimFunc t IsSpace
  | (false, t) =>
    match trimSpaceScan t.reverse with
    | (true, r) => TrimFunc r.reverse IsSpace
    | (false, r) => r.reverse

/-- `bytes.HasPrefix(s, p)`. -/
def HasPrefix : Bytes → Bytes → Bool
  | _, [] => true
  | [], _ :: _ => false
  | x :: s, y :: p => decide (x = y) && HasPrefix s p

/-- The replacement loop of `bytes.Replace` for a non-empty `old`: `skip` bytes of a matched
`old` are still to step over, `left` replacements may still be made (`none`: no limit). -/
def replaceFrom (old new : Bytes) : Bytes → Nat → Option Nat → Bytes
  | [], _, _ => []
  | _ :: rest, skip + 1, left => replaceFrom old new rest skip left
  | b :: rest, 0, left =>
    if left ≠ some 0 ∧ HasPrefix (b :: rest) old = true then
      new ++ replaceFrom old new rest (old.length - 1) (left.map (· - 1))
    else b :: replaceFrom old new rest 0 left

/-- `bytes.Replace(s, old, new, n)` for a non-empty `old` (the package calls it with
`old = newline`): the first `n` non-overlapping instances of `old` become `new`, all of them
when `n < 0`. -/
def Replace (s old new : Bytes) (n : Int) (_hold : old ≠ []) : Bytes :=
  replaceFrom old new s 0 (if n < 0 then none else some n.toNat)

/-- The package variables `newline = []byte{'\n'}` and `space = []byte{' '}`. -/
def newline : Bytes := [10]

/-- The package variable `space`. -/
def space : Bytes := [32]

/-- `ReceiveMessage`. -/
structure ReceiveMessage where
  Message : Bytes
  Connection : ConnPtr
  deriving DecidableEq, Repr

/-- The body of the loop of `Connection.readPump` for a message `ReadMessage` returned
without error: normalise it and send it on `ReceiveMessages`, tagged with the connection. -/
def Connection.readPump (c : ConnPtr) (ReceiveMessages : List ReceiveMessage) (message : Bytes) :
    List ReceiveMessage :=
  ReceiveMessages ++
    [{ Message := TrimSpace (Replace message newline space (-1) (by decide)), Connection := c }]


/-- `out` is a contiguous part of `s`. -/
def Within (out s : Bytes) : Prop := ∃ pre suf : Bytes, s = pre ++ out ++ suf

/-- The safety condition of the hub, relative to the registrations still to come: the
process is alive, a connection whose `Send` queue is closed is neither registered nor about
to be registered, and no registered connection is about to be registered again. -/
def HubSafe (w : World) (future : List ConnPtr) : Prop :=
  w.panicked = none ∧
  (∀ c, (w.Send c).closed = true → c ∉ w.hub.connections.keys ∧ c ∉ future) ∧
  (∀ c ∈ w.hub.connections.keys, c ∉ future)

/-! ## The timing constants of `connection.go` -/

/-- `time.Second`, in the nanoseconds a `time.Duration` (an `int64`) counts. -/
def Second : Int := 1000000000

/-- Time allowed to write a message to the peer. -/
def writeWait : Int := 10 * Second

/-- Time allowed to read the next pong message from the peer. -/
def pongWait : Int := 60 * Second

/-- Send pings to peer with this period: `(pongWait * 9) / 10`, the division being the
truncating division of Go integers. -/
def pingPeriod : Int := Int.tdiv (pongWait * 9) 10

/-- Maximum message size allowed from peer. -/
def maxMessageSize : Nat := 2048

/-! ## The origin check of `NewUpgrader` -/

/-- The bytes of an ASCII string literal. -/
def ascii (s : String) : Bytes := s.toList.map Char.toNat

/-- `strings.TrimPrefix(s, p)`. -/
def TrimPrefix (s p : Bytes) : Bytes := if HasPrefix s p then s.drop p.length else s

/-- `strings.ToLower(s)`: a string of ASCII bytes gets its letters `A` to `Z` lowered; a
string with a byte `>= utf8.RuneSelf` goes through `strings.Map(unicode.ToLower, s)`, which
is the parameter `mapLower`. -/
def ToLower (mapLower : Bytes → Bytes) (s : Bytes) : Bytes :=
  if s.all (fun c => decide (c < RuneSelf)) then
    s.map (fun c => if 65 ≤ c ∧ c ≤ 90 then c + 32 else c)
  else mapLower s

/-- `strings.SplitN(s, sep, 2)` for a one-byte separator: `s` itself when `sep` does not
occur, else the parts before and after its first occurrence. -/
def SplitN2 (s : Bytes) (sep : Nat) : List Bytes :=
  match IndexByte s sep with
  | none => [s]
  | some i => [s.take i, s.drop (i + 1)]

/-- `strings.Split(s, sep)` for a one-byte separator: the parts between the occurrences. -/
def Split : Bytes → Nat → List Bytes
  | [], _ => [[]]
  | b :: rest, sep =>
    if b = sep then [] :: Split rest sep
    else
      match Split rest sep with
      | part :: parts => (b :: part) :: parts
      | [] => [[b]]

/-- `IP.To4()`: the four bytes of an IPv4 address given in 4-byte or in IPv4-mapped 16-byte
form, `none` (Go's `nil`) for any other address. -/
def To4 (ip : Bytes) : Option Bytes :=
  if ip.length = 4 then some ip
  else if ip.length = 16 ∧ ip.take 10 = List.replicate 10 0 ∧ ip.getD 10 0 = 0xff
      ∧ ip.getD 11 0 = 0xff then some (ip.drop 12)
  else none

/-- The address `net.IPv6loopback`, `::1`. -/
def IPv6loopback : Bytes := [0, 0, 0, 0, 0, 0, 0, 0, 0, 0, 0, 0, 0, 0, 0, 1]

/-- `IP.IsLoopback()`. -/
def IsLoopback (ip : Bytes) : Bool :=
  match To4 ip with
  | some ip4 => decide (ip4.getD 0 0 = 127)
  | none => decide (ip = IPv6loopback)

/-- `IP.IsPrivate()`; `ip4[1]&0xf0 == 16` is `ip4[1] / 16 = 1` and `ip[0]&0xfe == 0xfc` is
`ip[0] / 2 = 126` on a byte. -/
def IsPrivate (ip : Bytes) : Bool :=
  match To4 ip with
  | some ip4 =>
    decide (ip4.getD 0 0 = 10) ||
      (decide (ip4.getD 0 0 = 172) && decide (ip4.getD 1 0 / 16 = 1)) ||
      (decide (ip4.getD 0 0 = 192) && decide (ip4.getD 1 0 = 168))
  | none => decide (ip.length = 16) && decide (ip.getD 0 0 / 2 = 126)

/-- The function `isAllowedLocalOrigin`; `ParseIP` is `net.ParseIP` (`none` for `nil`). -/
def isAllowedLocalOrigin (ParseIP : Bytes → Option Bytes) (origin : Bytes) : Bool :=
  if HasPrefix origin (ascii "http://localhost") || HasPrefix origin (ascii "https://localhost")
  then true
  else if HasPrefix origin (ascii "http://127.0.0.1")
      || HasPrefix origin (ascii "https://127.0.0.1") then true
  else if HasPrefix origin (ascii "http://[::1]") || HasPrefix origin (ascii "https://[::1]")
  then true
  else if HasPrefix origin (ascii "http://") || HasPrefix origin (ascii "https://") then
    let host := TrimPrefix (TrimPrefix origin (ascii "http://")) (ascii "https://")
    let hostPort := (SplitN2 host 47).headD []
    let hostOnly := (Split hostPort 58).headD []
    match ParseIP hostOnly with
    | some ip => if IsLoopback ip || IsPrivate ip then true else false
    | none => false
  else false

/-- The map `allowedOrigins` of `NewUpgrader`. -/
def allowedOrigins : List Bytes :=
  [ascii "https://kivle.github.io", ascii "https://kivle.github.io/msfs-map",
   ascii "https://github.com/kivle/msfs-map"]

/-- What `CheckOrigin` reads of a `*http.Request`: the first value of its `Origin` header,
if it has one. -/
structure Request where
  Origin : Option Bytes

/-- `r.Header.Get("Origin")`: the empty string when the header is missing. -/
def Request.HeaderGetOrigin (r : Request) : Bytes := r.Origin.getD []

/-- The `CheckOrigin` function of the upgrader `NewUpgrader(allowAllOrigins)` returns. -/
def CheckOrigin (mapLower : Bytes → Bytes) (ParseIP : Bytes → Option Bytes)
    (allowAllOrigins : Bool) (r : Request) : Bool :=
  if allowAllOrigins then true
  else
    let origin := r.HeaderGetOrigin
    if origin = [] then false
    else
      let originLower := ToLower mapLower origin
      if isAllowedLocalOrigin ParseIP originLower then true
      else if allowedOrigins.contains originLower then true
      else false

/-! ## The command dispatcher: `handleClientMessage` in `main.go` -/

/-- The values `json.Unmarshal` stores in an `interface{}`: `nil`, `bool`, `float64`,
`string`, `[]interface{}` and `map[string]interface{}`.  The code only passes numbers on, so
`float64` is a type parameter `F`. -/
inductive JsonValue (F : Type) where
  | null
  | bool (b : Bool)
  | number (x : F)
  | string (s : Bytes)
  | array (xs : List (JsonValue F))
  | object (kvs : List (Bytes × JsonValue F))

/-- The index expression `pkt[key]` on a `map[string]interface{}`: `nil` for a missing key
(and for a nil map, which is the empty list here). -/
def pktGet {F : Type} (pkt : List (Bytes × JsonValue F)) (key : Bytes) : JsonValue F :=
  (pkt.lookup key).getD JsonValue.null

/-- The struct `TeleportRequest`, without the embedded receive header. -/
structure TeleportRequest (F : Type) where
  Latitude : F
  Longitude : F
  Altitude : F

/-- `TeleportRequest.SetData`: the array `buf` whose address and size `3 * 8` it passes to
`SetDataOnSimObject` for the user's aircraft. -/
def TeleportRequest.SetData {F : Type} (r : TeleportRequest F) : List F :=
  [r.Latitude, r.Longitude, r.Altitude]

/-- The function `handleClientMessage`; `Unmarshal` is `json.Unmarshal` into a
`map[string]interface{}` (`none` when it returns an error).  The result is the data set on
the simulator, `none` when nothing is sent to it. -/
def handleClientMessage {F : Type} (Unmarshal : Bytes → Option (List (Bytes × JsonValue F)))
    (disableTeleport : Bool) (m : ReceiveMessage) : Option (List F) :=
  match Unmarshal m.Message with
  | none => none
  | some pkt =>
    match pktGet pkt (ascii "type") with
    | .string pktType =>
      if pktType = ascii "teleport" then
        if disableTeleport then none
        else
          match pktGet pkt (ascii "lat") with
          | .number lat =>
            match pktGet pkt (ascii "lng") with
            | .number lng =>
              match pktGet pkt (ascii "altitude") with
              | .number altitude =>
                some (TeleportRequest.SetData
                  { Latitude := lat, Longitude := lng, Altitude := altitude })
              | _ => none
            | _ => none
          | _ => none
      else none
    | _ => none

/-! ## `Connection.readPump` as a loop -/

/-- What the stream brings to a blocked `c.conn.ReadMessage()`: a complete message of the
peer, or a failure (the peer closed, the network failed, the read deadline passed, the
stream was closed). -/
inductive StreamEvent where
  | frame (payload : Bytes)
  | failure
  deriving DecidableEq, Repr

/-- `c.conn.ReadMessage()` after `c.conn.SetReadLimit(readLimit)`: `none` stands for a
non-nil `err`.  A message longer than the limit is an error of the read. -/
def ReadMessage (readLimit : Nat) : StreamEvent → Option Bytes
  | .frame payload => if payload.length > readLimit then none else some payload
  | .failure => none

/-- Where `readPump` stands: in its loop, in its deferred function at the send
`c.socket.unregister <- c` (the channel is unbuffered: it waits for `Run`), or returned. -/
inductive ReaderPc where
  | reading
  | unregistering
  | returned
  deriving DecidableEq, Repr

/-- The state of one `readPump` goroutine and what it has done so far: the messages sent on
`ReceiveMessages`, the values sent on `unregister`, the calls of `c.conn.Close()`. -/
structure ReaderState where
  ReceiveMessages : List ReceiveMessage
  pc : ReaderPc
  unregister : List ConnPtr
  closes : Nat
  deriving DecidableEq, Repr

/-- The reader as `readPump` enters its loop. -/
def readerStart : ReaderState :=
  { ReceiveMessages := [], pc := .reading, unregister := [], closes := 0 }

/-- What moves `readPump` on: `ReadMessage` returns, or `Run` takes the value offered on
`unregister`. -/
inductive ReaderEvent where
  | read (ev : StreamEvent)
  | hubTakes
  deriving DecidableEq, Repr

/-- One step of `readPump`: in the loop a read either publishes the normalised message or
(`err != nil`) breaks into the deferred function; there the send on `unregister`, once
taken, is followed by `c.conn.Close()` and the return. -/
def Connection.readPumpStep (c : ConnPtr) (st : ReaderState) : ReaderEvent → ReaderState
  | .read ev =>
    match st.pc with
    | .reading =>
      match ReadMessage maxMessageSize ev with
      | some message =>
        { st with ReceiveMessages := Connection.readPump c st.ReceiveMessages message }
      | none => { st with pc := .unregistering }
    | _ => st
  | .hubTakes =>
    match st.pc with
    | .unregistering =>
      { st with unregister := st.unregister ++ [c], closes := st.closes + 1, pc := .returned }
    | _ => st

/-- The goroutine `readPump` over a sequence of events. -/
def Connection.readPumpRun (c : ConnPtr) (st : ReaderState) (evs : List ReaderEvent) :
    ReaderState :=
  evs.foldl (Connection.readPumpStep c) st

/-- What `readPump` publishes for the messages `ms`, in order. -/
def published (c : ConnPtr) (ms : List Bytes) : List ReceiveMessage :=
  ms.map (fun m =>
    { Message := TrimSpace (Replace m newline space (-1) (by decide)), Connection := c })

/-! ## The three goroutines of one connection -/

/-- Where `Connection.writer` stands: in its `select`, at the send `c.SendQueue <- message`
(the channel is unbuffered: it waits for `writePump`), or returned. -/
inductive WriterPc where
  | selecting
  | sending (message : Bytes)
  | returned
  deriving DecidableEq, Repr

/-- One registered connection with its three goroutines: whether it is a key of
`h.connections`, its `Send` channel, the writer's buffer and position, whether `SendQueue`
is closed, whether `writePump` has returned, the reader's position, whether
`c.conn.Close()` has been called, and the text messages written to the peer. -/
structure ConnTasks where
  registered : Bool
  Send : Chan
  buf : Buffer
  writer : WriterPc
  SendQueueClosed : Bool
  writePumpReturned : Bool
  reader : ReaderPc
  connClosed : Bool
  wire : List Bytes
  panicked : Option Panic
  deriving DecidableEq, Repr

/-- The connection right after `Serve` has built and registered it and `Run` has started
the three goroutines. -/
def tasksStart : ConnTasks :=
  { registered := true, Send := Chan.make, buf := { unread := [] }, writer := .selecting,
    SendQueueClosed := false, writePumpReturned := false, reader := .reading,
    connClosed := false, wire := [], panicked := none }

/-- The steps that concern one connection: the hub's fan-out reaches it, the two cases of
the writer's `select`, the two cases of `writePump`'s `select` (with whether the network
write succeeds), a failing read of `readPump`, and `Run` taking its unregistration. -/
inductive TaskEvent where
  | hubBroadcast (packet : Bytes)
  | writerRecv
  | writerTick
  | writePumpRecv (writeOk : Bool)
  | writePumpPing (writeOk : Bool)
  | readFail
  | hubUnregister
  deriving DecidableEq, Repr

/-- One step of the connection; an event whose goroutine is not at that point (or has
returned), or whose channel operation is not ready, changes nothing.  A write on the stream
succeeds only if the network lets it and the stream has not been closed. -/
def tasksStep (s : ConnTasks) : TaskEvent → ConnTasks
  | .hubBroadcast packet =>
    if s.registered then
      match s.Send.send packet with
      | .ok ch => { s with Send := ch }
      | .error p => { s with panicked := some p }
    else s
  | .writerRecv =>
    match s.writer with
    | .selecting =>
      match s.Send.recv with
      | none => s
      | some (some message, ch) =>
        { s with Send := ch, buf := (s.buf.Write message).Write [newlineByte] }
      | some (none, _) => { s with SendQueueClosed := true, writer := .returned }
    | _ => s
  | .writerTick =>
    match s.writer with
    | .selecting =>
      match s.buf.ReadBytes newlineByte with
      | (message, true, buf1) => { s with buf := buf1, writer := .sending message }
      | (_, false, buf1) => { s with buf := buf1 }
    | _ => s
  | .writePumpRecv writeOk =>
    if s.writePumpReturned then s
    else
      match s.writer with
      | .sending message =>
        if writeOk && !s.connClosed then
          { s with writer := .selecting, wire := s.wire ++ [message] }
        else { s with writer := .selecting, writePumpReturned := true, connClosed := true }
      | _ =>
        if s.SendQueueClosed then { s with writePumpReturned := true, connClosed := true }
        else s
  | .writePumpPing writeOk =>
    if s.writePumpReturned then s
    else if writeOk && !s.connClosed then s
    else { s with writePumpReturned := true, connClosed := true }
  | .readFail =>
    match s.reader with
    | .reading => { s with reader := .unregistering }
    | _ => s
  | .hubUnregister =>
    match s.reader with
    | .unregistering =>
      if s.registered then
        match s.Send.close with
        | .ok ch =>
          { s with registered := false, Send := ch, connClosed := true, reader := .returned }
        | .error p => { s with registered := false, panicked := some p }
      else { s with connClosed := true, reader := .returned }
    | _ => s

/-- The connection over a schedule of steps. -/
def tasksRun (s : ConnTasks) (evs : List TaskEvent) : ConnTasks := evs.foldl tasksStep s

/-! ## Example messages for the command dispatcher -/

/-- The bytes of `{"type":"teleport","lat":47,"lng":8,"altitude":1000}`. -/
def teleportMessage : Bytes :=
  [123, 34, 116, 121, 112, 101, 34, 58, 34, 116, 101, 108, 101, 112, 111, 114, 116, 34, 44,
   34, 108, 97, 116, 34, 58, 52, 55, 44, 34, 108, 110, 103, 34, 58, 56, 44, 34, 97, 108, 116,
   105, 116, 117, 100, 101, 34, 58, 49, 48, 48, 48, 125]

/-- The map `json.Unmarshal` decodes `teleportMessage` to: `type` is the string `teleport`,
`lat`, `lng` and `altitude` are the numbers 47, 8 and 1000 (these `float64` values are
integers, and `F` is `Int` in the examples). -/
def teleportPacket : List (Bytes × JsonValue Int) :=
  [([116, 121, 112, 101], JsonValue.string [116, 101, 108, 101, 112, 111, 114, 116]),
   ([108, 97, 116], JsonValue.number 47),
   ([108, 110, 103], JsonValue.number 8),
   ([97, 108, 116, 105, 116, 117, 100, 101], JsonValue.number 1000)]

/-- The bytes of `{"type":"ping"}`. -/
def pingMessage : Bytes :=
  [123, 34, 116, 121, 112, 101, 34, 58, 34, 112, 105, 110, 103, 34, 125]

/-- The bytes of `{"type":"teleport","lat":"47","lng":8,"altitude":1000}`, where `lat` is a
string. -/
def stringLatMessage : Bytes :=
  [123, 34, 116, 121, 112, 101, 34, 58, 34, 116, 101, 108, 101, 112, 111, 114, 116, 34, 44,
   34, 108, 97, 116, 34, 58, 34, 52, 55, 34, 44, 34, 108, 110, 103, 34, 58, 56, 44, 34, 97,
   108, 116, 105, 116, 117, 100, 101, 34, 58, 49, 48, 48, 48, 125]

/-- The bytes of `{"lat":47,"lng":8,"altitude":1000}`, an object without `type`. -/
def untypedMessage : Bytes :=
  [123, 34, 108, 97, 116, 34, 58, 52, 55, 44, 34, 108, 110, 103, 34, 58, 56, 44, 34, 97, 108,
   116, 105, 116, 117, 100, 101, 34, 58, 49, 48, 48, 48, 125]

/-- What `json.Unmarshal` returns on the example messages: the decoded map for the four
objects above, an error for any other message the examples use (the text
`teleport 47 8 1000`, which is no JSON). -/
def exampleUnmarshal (message : Bytes) : Option (List (Bytes × JsonValue Int)) :=
  if message = teleportMessage then some teleportPacket
  else if message = pingMessage then
    some [([116, 121, 112, 101], JsonValue.string [112, 105, 110, 103])]
  else if message = stringLatMessage then
    some [([116, 121, 112, 101], JsonValue.string [116, 101, 108, 101, 112, 111, 114, 116]),
      ([108, 97, 116], JsonValue.string [52, 55]),
      ([108, 110, 103], JsonValue.number 8),
      ([97, 108, 116, 105, 116, 117, 100, 101], JsonValue.number 1000)]
  else if message = untypedMessage then
    some [([108, 97, 116], JsonValue.number 47), ([108, 110, 103], JsonValue.number 8),
      ([97, 108, 116, 105, 116, 117, 100, 101], JsonValue.number 1000)]
  else none

/-! # Theorems -/

@[simp] theorem setSend_hub (w : World) (c : ConnPtr) (ch : Chan) :
    (w.setSend c ch).hub = w.hub := rfl

@[simp] theorem setSend_panicked (w : World) (c : ConnPtr) (ch : Chan) :
    (w.setSend c ch).panicked = w.panicked := rfl

@[simp] theorem setSend_same (w : World) (c : ConnPtr) (ch : Chan) :
    (w.setSend c ch).Send c = ch := by
  simp [World.setSend]

theorem setSend_other (w : World) (c d : ConnPtr) (ch : Chan) (h : d ≠ c) :
    (w.setSend c ch).Send d = w.Send d := by
  simp [World.setSend, Function.update_noteq h]

/-! ## The fan-out loop -/

theorem fanOut_hub (packet : Bytes) :
    ∀ (cs : List ConnPtr) (w : World), (fanOut packet cs w).hub = w.hub := by
  intro cs
  induction cs with
  | nil => intro w; rfl
  | cons c cs ih =>
    intro w
    cases h : (w.Send c).closed <;> simp [fanOut, Chan.send, h, ih]

theorem fanOut_closed (packet : Bytes) :
    ∀ (cs : List ConnPtr) (w : World) (d : ConnPtr),
      ((fanOut packet cs w).Send d).closed = (w.Send d).closed := by
  intro cs
  induction cs with
  | nil => intro w d; rfl
  | cons c cs ih =>
    intro w d
    cases h : (w.Send c).closed
    · simp only [fanOut, Chan.send, h, Bool.false_eq_true, if_false]
      rw [ih]
      by_cases hd : d = c
      · subst hd; simp [h]
      · simp [setSend_other _ _ _ _ hd]
    · simp [fanOut, Chan.send, h]

theorem fanOut_not_mem (packet : Bytes) :
    ∀ (cs : List ConnPtr) (w : World) (d : ConnPtr), d ∉ cs →
      (fanOut packet cs w).Send d = w.Send d := by
  intro cs
  induction cs with
  | nil => intro w d _; rfl
  | cons c cs ih =>
    intro w d hd
    have hdc : d ≠ c := fun e => hd (e ▸ List.mem_cons_self _ _)
    have hdcs : d ∉ cs := fun e => hd (List.mem_cons_of_mem _ e)
    cases h : (w.Send c).closed
    · simp only [fanOut, Chan.send, h, Bool.false_eq_true, if_false]
      rw [ih _ d hdcs]
      simp [setSend_other _ _ _ _ hdc]
    · simp [fanOut, Chan.send, h]

theorem fanOut_queue_cases (packet : Bytes) :
    ∀ (cs : List ConnPtr) (w : World) (d : ConnPtr), cs.Nodup →
      ((fanOut packet cs w).Send d).queue = (w.Send d).queue ∨
      ((fanOut packet cs w).Send d).queue = (w.Send d).queue ++ [packet] := by
  intro cs
  induction cs with
  | nil => intro w d _; exact Or.inl rfl
  | cons c cs ih =>
    intro w d hnd
    have hc : c ∉ cs := (List.nodup_cons.mp hnd).1
    have hcs : cs.Nodup := (List.nodup_cons.mp hnd).2
    cases h : (w.Send c).closed
    · simp only [fanOut, Chan.send, h, Bool.false_eq_true, if_false]
      by_cases hd : d = c
      · subst hd
        rw [fanOut_not_mem packet cs _ d hc]
        simp
      · rcases ih (w.setSend c (Chan.mk ((w.Send c).queue ++ [packet]) false)) d hcs
          with h1 | h1
        · left; rw [h1]; simp [setSend_other _ _ _ _ hd]
        · right; rw [h1]; simp [setSend_other _ _ _ _ hd]
    · simp [fanOut, Chan.send, h]

theorem fanOut_open (packet : Bytes) :
    ∀ (cs : List ConnPtr) (w : World), cs.Nodup → w.panicked = none →
      (∀ c ∈ cs, (w.Send c).closed = false) →
      (fanOut packet cs w).panicked = none ∧
      ∀ c ∈ cs, ((fanOut packet cs w).Send c).queue = (w.Send c).queue ++ [packet] := by
  intro cs
  induction cs with
  | nil => intro w _ hp _; exact ⟨hp, fun c hc => absurd hc (List.not_mem_nil c)⟩
  | cons c cs ih =>
    intro w hnd hp hopen
    have hc : c ∉ cs := (List.nodup_cons.mp hnd).1
    have hcs : cs.Nodup := (List.nodup_cons.mp hnd).2
    have h : (w.Send c).closed = false := hopen c (List.mem_cons_self _ _)
    simp only [fanOut, Chan.send, h, Bool.false_eq_true, if_false]
    have hopen1 : ∀ d ∈ cs,
        ((w.setSend c (Chan.mk ((w.Send c).queue ++ [packet]) false)).Send d).closed = false := by
      intro d hd
      have hdc : d ≠ c := fun e => hc (e ▸ hd)
      rw [setSend_other _ _ _ _ hdc]
      exact hopen d (List.mem_cons_of_mem _ hd)
    have key := ih (w.setSend c (Chan.mk ((w.Send c).queue ++ [packet]) false)) hcs hp hopen1
    refine ⟨key.1, ?_⟩
    intro d hd
    rcases List.mem_cons.mp hd with e | e
    · subst e
      rw [fanOut_not_mem packet cs _ d hc]
      simp
    · have hdc : d ≠ c := fun e1 => hc (e1 ▸ e)
      rw [key.2 d e]
      simp [setSend_other _ _ _ _ hdc]

theorem step_broadcast_eq (w : World) (packet : Bytes) (rest : List Bytes)
    (hpending : w.hub.broadcast = packet :: rest) (hlive : w.panicked = none) :
    step w .broadcast =
      fanOut packet w.hub.connections.keys { w with hub := { w.hub with broadcast := rest } } := by
  simp [step, hlive, runBroadcast, hpending]

theorem fanOut_open_send (packet : Bytes) (cs : List ConnPtr) (w : World) (hnd : cs.Nodup)
    (hlive : w.panicked = none) (hopen : ∀ c ∈ cs, (w.Send c).closed = false)
    (c : ConnPtr) (hc : c ∈ cs) :
    (fanOut packet cs w).Send c = { queue := (w.Send c).queue ++ [packet], closed := false } := by
  have hq := (fanOut_open packet cs w hnd hlive hopen).2 c hc
  have hcl := fanOut_closed packet cs w c
  rw [hopen c hc] at hcl
  cases hs : (fanOut packet cs w).Send c with
  | mk q cl =>
    rw [hs] at hq hcl
    simp only at hq hcl
    rw [hq, hcl]

/-- The order in which `range` visits the map does not matter to a fan-out that meets no
closed queue. -/
theorem fanOut_order_irrelevant (packet : Bytes) (cs cs1 : List ConnPtr) (w : World)
    (hperm : cs.Perm cs1) (hnd : cs.Nodup) (hlive : w.panicked = none)
    (hopen : ∀ c ∈ cs, (w.Send c).closed = false) :
    (fanOut packet cs w).Send = (fanOut packet cs1 w).Send ∧
    (fanOut packet cs w).panicked = (fanOut packet cs1 w).panicked := by
  have hnd1 : cs1.Nodup := hperm.nodup_iff.mp hnd
  have hopen1 : ∀ c ∈ cs1, (w.Send c).closed = false :=
    fun c hc => hopen c (hperm.mem_iff.mpr hc)
  refine ⟨?_, ?_⟩
  · funext c
    by_cases hc : c ∈ cs
    · rw [fanOut_open_send packet cs w hnd hlive hopen c hc,
        fanOut_open_send packet cs1 w hnd1 hlive hopen1 c (hperm.mem_iff.mp hc)]
    · rw [fanOut_not_mem packet cs w c hc,
        fanOut_not_mem packet cs1 w c (fun h => hc (hperm.mem_iff.mpr h))]
  · rw [(fanOut_open packet cs w hnd hlive hopen).1,
      (fanOut_open packet cs1 w hnd1 hlive hopen1).1]

/-! ## Single steps and schedules -/

theorem run_nil (w : World) : run w [] = w := rfl

theorem run_cons (w : World) (a : Action) (as : List Action) :
    run w (a :: as) = run (step w a) as := rfl

theorem run_append (w : World) (as bs : List Action) :
    run w (as ++ bs) = run (run w as) bs := by
  simp [run, List.foldl_append]

theorem calls_cons (a : Action) (as : List Action) : calls (a :: as) = calls [a] ++ calls as := by
  cases a <;> simp [calls]

theorem mem_insert_keys (m : ConnMap) (c d : ConnPtr) :
    d ∈ (m.insert c).keys ↔ d = c ∨ d ∈ m.keys := by
  unfold ConnMap.insert
  by_cases h : c ∈ m.keys
  · simp only [h, dif_pos]
    constructor
    · intro hd; exact Or.inr hd
    · rintro (e | hd)
      · exact e ▸ h
      · exact hd
  · simp only [h, dif_neg, not_false_eq_true, List.mem_cons]

theorem step_panicked (w : World) (a : Action) (h : w.panicked ≠ none) : step w a = w := by
  unfold step
  cases hp : w.panicked with
  | none => exact absurd hp h
  | some p => rfl

/-- What one action does to the `Send` queue of one connection: nothing, or (only when `Run`
takes a pending packet while the connection is a key of `connections`) one append of that
packet. -/
theorem step_delivery (w : World) (a : Action) (c : ConnPtr) :
    ∃ d : List Bytes,
      ((step w a).Send c).queue = (w.Send c).queue ++ d ∧
      (d ++ (step w a).hub.broadcast).Sublist (w.hub.broadcast ++ calls [a]) ∧
      (c ∉ w.hub.connections.keys → d = []) ∧
      d.length ≤ [a].count Action.broadcast := by
  cases hp : w.panicked with
  | some p =>
    have hs : step w a = w := step_panicked w a (by simp [hp])
    exact ⟨[], by simp [hs], by simp [hs], fun _ => rfl, by simp⟩
  | none =>
    cases a with
    | Broadcast buf =>
      exact ⟨[], by simp [step, hp, Broadcast], by simp [step, hp, Broadcast, calls],
        fun _ => rfl, by simp⟩
    | register c1 =>
      exact ⟨[], by simp [step, hp, runRegister], by simp [step, hp, runRegister, calls],
        fun _ => rfl, by simp⟩
    | unregister c1 =>
      refine ⟨[], ?_, ?_, fun _ => rfl, by simp⟩
      · simp only [step, hp, runUnregister, List.append_nil]
        by_cases hc : w.hub.connections.contains c1 = true
        · simp only [hc, if_true]
          cases hcl : (w.Send c1).closed
          · simp only [Chan.close, hcl, Bool.false_eq_true, if_false]
            by_cases e : c = c1
            · subst e; simp
            · rw [setSend_other _ _ _ _ e]
          · simp [Chan.close, hcl]
        · simp [hc]
      · simp only [step, hp, runUnregister, List.nil_append, calls, List.append_nil]
        by_cases hc : w.hub.connections.contains c1 = true
        · simp only [hc, if_true]
          cases hcl : (w.Send c1).closed <;> simp [Chan.close, hcl]
        · simp [hc]
    | broadcast =>
      cases hb : w.hub.broadcast with
      | nil =>
        exact ⟨[], by simp [step, hp, runBroadcast, hb], by simp [step, hp, runBroadcast, hb],
          fun _ => rfl, by simp⟩
      | cons packet rest =>
        have hs : step w .broadcast = fanOut packet w.hub.connections.keys
            { w with hub := { w.hub with broadcast := rest } } := by
          simp [step, hp, runBroadcast, hb]
        by_cases hc : c ∈ w.hub.connections.keys
        · rcases fanOut_queue_cases packet w.hub.connections.keys
            { w with hub := { w.hub with broadcast := rest } } c w.hub.connections.nodup
            with h1 | h1
          · refine ⟨[], ?_, ?_, fun _ => rfl, by simp⟩
            · rw [hs, h1]; simp
            · rw [hs, fanOut_hub]; simp [calls]
          · refine ⟨[packet], ?_, ?_, fun h => absurd hc h, by simp⟩
            · rw [hs, h1]
            · rw [hs, fanOut_hub]; simp [calls]
        · refine ⟨[], ?_, ?_, fun _ => rfl, by simp⟩
          · rw [hs, fanOut_not_mem packet _ _ c hc]; simp
          · rw [hs, fanOut_hub]; simp [calls]

/-- Over a whole schedule, what is appended to one `Send` queue is a subsequence of the
packets pending at the start followed by the payloads of the `Broadcast` calls. -/
theorem run_delivery (c : ConnPtr) :
    ∀ (as : List Action) (w : World),
      ∃ d : List Bytes,
        ((run w as).Send c).queue = (w.Send c).queue ++ d ∧
        (d ++ (run w as).hub.broadcast).Sublist (w.hub.broadcast ++ calls as) ∧
        d.length ≤ as.count Action.broadcast := by
  intro as
  induction as with
  | nil => intro w; exact ⟨[], by simp [run_nil], by simp [run_nil, calls], by simp⟩
  | cons a as ih =>
    intro w
    obtain ⟨d0, hq0, hs0, -, hl0⟩ := step_delivery w a c
    obtain ⟨d1, hq1, hs1, hl1⟩ := ih (step w a)
    refine ⟨d0 ++ d1, ?_, ?_, ?_⟩
    · rw [run_cons, hq1, hq0, List.append_assoc]
    · rw [run_cons, calls_cons, ← List.append_assoc, List.append_assoc d0]
      have h1 : (d0 ++ (d1 ++ (run (step w a) as).hub.broadcast)).Sublist
          (d0 ++ ((step w a).hub.broadcast ++ calls as)) :=
        List.Sublist.append (List.Sublist.refl d0) hs1
      rw [← List.append_assoc d0 (step w a).hub.broadcast] at h1
      exact h1.trans (List.Sublist.append hs0 (List.Sublist.refl _))
    · rw [List.length_append, List.count_cons]
      have : [a].count Action.broadcast = if (a == Action.broadcast) = true then 1 else 0 := by
        simp [List.count_cons]
      omega

/-- A connection that is not registered and that the schedule never registers keeps its
`Send` channel untouched and stays unregistered. -/
theorem run_unregistered (c : ConnPtr) :
    ∀ (as : List Action) (w : World),
      c ∉ w.hub.connections.keys → c ∉ registrations as →
      (run w as).Send c = w.Send c ∧ c ∉ (run w as).hub.connections.keys := by
  intro as
  induction as with
  | nil => intro w hc _; exact ⟨rfl, hc⟩
  | cons a as ih =>
    intro w hc hr
    have hstep : (step w a).Send c = w.Send c ∧ c ∉ (step w a).hub.connections.keys ∧
        c ∉ registrations as := by
      cases hp : w.panicked with
      | some p =>
        have hs : step w a = w := step_panicked w a (by simp [hp])
        rw [hs]
        refine ⟨rfl, hc, ?_⟩
        cases a <;> simp_all [registrations]
      | none =>
        cases a with
        | Broadcast buf => exact ⟨by simp [step, hp, Broadcast], by simpa [step, hp, Broadcast] using hc,
            by simpa [registrations] using hr⟩
        | register c1 =>
          have hr1 : c ≠ c1 ∧ c ∉ registrations as := by simpa [registrations] using hr
          refine ⟨by simp [step, hp, runRegister], ?_, hr1.2⟩
          simp only [step, hp, runRegister]
          rw [mem_insert_keys]
          rintro (e | e)
          · exact hr1.1 e
          · exact hc e
        | unregister c1 =>
          refine ⟨?_, ?_, by simpa [registrations] using hr⟩
          · simp only [step, hp, runUnregister]
            by_cases h1 : w.hub.connections.contains c1 = true
            · have hne : c ≠ c1 := by
                intro e
                subst e
                exact hc (by simpa [ConnMap.contains] using h1)
              simp only [h1, if_true]
              cases hcl : (w.Send c1).closed
              · simp only [Chan.close, hcl, Bool.false_eq_true, if_false]
                rw [setSend_other _ _ _ _ hne]
              · simp [Chan.close, hcl]
            · simp [h1]
          · simp only [step, hp, runUnregister]
            by_cases h1 : w.hub.connections.contains c1 = true
            · simp only [h1, if_true]
              cases hcl : (w.Send c1).closed
              · simp only [Chan.close, hcl, Bool.false_eq_true, if_false, setSend_hub,
                  ConnMap.delete]
                exact fun e => hc (List.mem_of_mem_erase e)
              · simp only [Chan.close, hcl, if_true, ConnMap.delete]
                exact fun e => hc (List.mem_of_mem_erase e)
            · simpa [h1] using hc
        | broadcast =>
          refine ⟨?_, ?_, by simpa [registrations] using hr⟩
          · cases hb : w.hub.broadcast with
            | nil => simp [step, hp, runBroadcast, hb]
            | cons packet rest =>
              simp only [step, hp, runBroadcast, hb]
              rw [fanOut_not_mem packet _ _ c hc]
          · cases hb : w.hub.broadcast with
            | nil => simpa [step, hp, runBroadcast, hb] using hc
            | cons packet rest =>
              simp only [step, hp, runBroadcast, hb]
              rw [fanOut_hub]
              exact hc
    obtain ⟨h1, h2, h3⟩ := hstep
    obtain ⟨h4, h5⟩ := ih (step w a) h2 h3
    exact ⟨by rw [run_cons, h4, h1], by rw [run_cons]; exact h5⟩

/-! ## Safety of the hub when every connection is registered at most once -/

theorem New_hubSafe (future : List ConnPtr) : HubSafe New future := by
  refine ⟨rfl, ?_, ?_⟩
  · intro c hc; simp [New, Chan.make] at hc
  · intro c hc; simp [New, ConnMap.empty] at hc

theorem hubSafe_open (w : World) (future : List ConnPtr) (h : HubSafe w future) :
    ∀ c ∈ w.hub.connections.keys, (w.Send c).closed = false := by
  intro c hc
  cases hcl : (w.Send c).closed with
  | false => rfl
  | true => exact absurd hc (h.2.1 c hcl).1

theorem step_hubSafe (w : World) (a : Action) (as : List Action)
    (h : HubSafe w (registrations (a :: as))) (hnd : (registrations (a :: as)).Nodup) :
    HubSafe (step w a) (registrations as) := by
  obtain ⟨hp, hclosed, hreg⟩ := h
  cases a with
  | Broadcast buf =>
    simp only [registrations] at hclosed hreg
    exact ⟨by simp [step, hp, Broadcast], by simpa [step, hp, Broadcast] using hclosed,
      by simpa [step, hp, Broadcast] using hreg⟩
  | register c1 =>
    simp only [registrations] at hclosed hreg hnd
    have hc1 : c1 ∉ registrations as := (List.nodup_cons.mp hnd).1
    refine ⟨by simp [step, hp, runRegister], ?_, ?_⟩
    · intro c hc
      have hc0 : (w.Send c).closed = true := by simpa [step, hp, runRegister] using hc
      obtain ⟨h1, h2⟩ := hclosed c hc0
      have hne : c ≠ c1 := fun e => h2 (e ▸ List.mem_cons_self _ _)
      refine ⟨?_, fun e => h2 (List.mem_cons_of_mem _ e)⟩
      simp only [step, hp, runRegister]
      rw [mem_insert_keys]
      rintro (e | e)
      · exact hne e
      · exact h1 e
    · intro c hc
      simp only [step, hp, runRegister] at hc
      rw [mem_insert_keys] at hc
      rcases hc with e | e
      · exact e ▸ hc1
      · exact fun e1 => hreg c e (List.mem_cons_of_mem _ e1)
  | unregister c1 =>
    simp only [registrations] at hclosed hreg
    by_cases h1 : w.hub.connections.contains c1 = true
    · have hmem : c1 ∈ w.hub.connections.keys := by simpa [ConnMap.contains] using h1
      have hopen : (w.Send c1).closed = false := by
        cases hcl : (w.Send c1).closed with
        | false => rfl
        | true => exact absurd hmem (hclosed c1 hcl).1
      have hs : step w (.unregister c1) =
          World.setSend { w with hub := { w.hub with connections := w.hub.connections.delete c1 } }
            c1 (Chan.mk (w.Send c1).queue true) := by
        simp [step, hp, runUnregister, h1, Chan.close, hopen]
      rw [hs]
      refine ⟨by simpa using hp, ?_, ?_⟩
      · intro c hc
        by_cases e : c = c1
        · subst e
          exact ⟨by simpa [ConnMap.delete] using
            (List.Nodup.not_mem_erase w.hub.connections.nodup), hreg c hmem⟩
        · rw [setSend_other _ _ _ _ e] at hc
          obtain ⟨h2, h3⟩ := hclosed c hc
          exact ⟨by simpa [ConnMap.delete] using fun e1 => h2 (List.mem_of_mem_erase e1), h3⟩
      · intro c hc
        have : c ∈ w.hub.connections.keys := by
          simp only [setSend_hub, ConnMap.delete] at hc
          exact List.mem_of_mem_erase hc
        exact hreg c this
    · have hs : step w (.unregister c1) = w := by simp [step, hp, runUnregister, h1]
      rw [hs]
      exact ⟨hp, hclosed, hreg⟩
  | broadcast =>
    simp only [registrations] at hclosed hreg
    cases hb : w.hub.broadcast with
    | nil =>
      have hs : step w .broadcast = w := by simp [step, hp, runBroadcast, hb]
      rw [hs]
      exact ⟨hp, hclosed, hreg⟩
    | cons packet rest =>
      have hs : step w .broadcast = fanOut packet w.hub.connections.keys
          { w with hub := { w.hub with broadcast := rest } } := by
        simp [step, hp, runBroadcast, hb]
      have hopen : ∀ c ∈ w.hub.connections.keys, (w.Send c).closed = false :=
        hubSafe_open w _ ⟨hp, hclosed, hreg⟩
      have key := fanOut_open packet w.hub.connections.keys
        { w with hub := { w.hub with broadcast := rest } } w.hub.connections.nodup hp hopen
      rw [hs]
      refine ⟨key.1, ?_, ?_⟩
      · intro c hc
        rw [fanOut_closed] at hc
        rw [fanOut_hub]
        exact hclosed c hc
      · intro c hc
        rw [fanOut_hub] at hc
        exact hreg c hc

theorem run_hubSafe :
    ∀ (as : List Action) (w : World),
      HubSafe w (registrations as) → (registrations as).Nodup → HubSafe (run w as) [] := by
  intro as
  induction as with
  | nil => intro w h _; simpa [registrations, run_nil] using h
  | cons a as ih =>
    intro w h hnd
    have h1 := step_hubSafe w a as h hnd
    have hnd1 : (registrations as).Nodup := by
      cases a <;> simp_all [registrations]
    rw [run_cons]
    exact ih (step w a) h1 hnd1

/-! ## The claims about the hub -/

/-- **C1** Hub fan-out.  When `Run` takes the packet at the head of `h.broadcast` in a state
whose registered connections all have an open `Send` queue, the loop does not panic, the
`connections` map is left as it was, every registered connection gets exactly one copy of
the identical bytes appended to its `Send` queue, and no other `Send` queue changes. -/
theorem C1_run_broadcast_fans_out (w : World) (packet : Bytes) (rest : List Bytes)
    (hpending : w.hub.broadcast = packet :: rest)
    (hlive : w.panicked = none)
    (hopen : ∀ c ∈ w.hub.connections.keys, (w.Send c).closed = false) :
    (step w .broadcast).panicked = none ∧
    (step w .broadcast).hub.connections = w.hub.connections ∧
    (step w .broadcast).hub.broadcast = rest ∧
    (∀ c ∈ w.hub.connections.keys,
      (step w .broadcast).Send c =
        { queue := (w.Send c).queue ++ [packet], closed := false }) ∧
    (∀ c, c ∉ w.hub.connections.keys → (step w .broadcast).Send c = w.Send c) := by
  rw [step_broadcast_eq w packet rest hpending hlive]
  have key := fanOut_open packet w.hub.connections.keys
    { w with hub := { w.hub with broadcast := rest } } w.hub.connections.nodup hlive hopen
  refine ⟨key.1, ?_, ?_, ?_, ?_⟩
  · rw [fanOut_hub]
  · rw [fanOut_hub]
  · intro c hc
    exact fanOut_open_send packet w.hub.connections.keys
      { w with hub := { w.hub with broadcast := rest } } w.hub.connections.nodup hlive hopen c hc
  · intro c hc
    exact fanOut_not_mem packet _ _ c hc

theorem C1_run_broadcast_fans_out_witness :
    (run New [Action.register 0, Action.register 1, Action.Broadcast [112]]).hub.broadcast
      = [112] :: [] ∧
    (run New [Action.register 0, Action.register 1, Action.Broadcast [112]]).panicked = none ∧
    (∀ c ∈ (run New [Action.register 0, Action.register 1,
        Action.Broadcast [112]]).hub.connections.keys,
      ((run New [Action.register 0, Action.register 1,
        Action.Broadcast [112]]).Send c).closed = false) ∧
    (step (run New [Action.register 0, Action.register 1, Action.Broadcast [112]])
        Action.broadcast).Send 1 =
      { queue := ((run New [Action.register 0, Action.register 1,
          Action.Broadcast [112]]).Send 1).queue ++ [[112]], closed := false } :=
  ⟨by decide, by decide, by decide,
    (C1_run_broadcast_fans_out _ [112] [] (by decide) (by decide) (by decide)).2.2.2.1 1
      (by decide)⟩

/-- **C2** Broadcast ordering.  For every schedule of `Broadcast` calls and picks of `Run`
and every connection, the payloads appended to the connection's `Send` queue are, in queue
order, a subsequence of the payloads in the order `Broadcast` was called: from `New` the
queue itself is such a subsequence, and from any state what is appended is a subsequence of
the packets already pending followed by the later calls. -/
theorem C2_broadcast_order (as : List Action) (c : ConnPtr) :
    ((run New as).Send c).queue.Sublist (calls as) ∧
    ∀ w : World, ∃ d : List Bytes,
      ((run w as).Send c).queue = (w.Send c).queue ++ d ∧
      d.Sublist (w.hub.broadcast ++ calls as) := by
  have gen : ∀ w : World, ∃ d : List Bytes,
      ((run w as).Send c).queue = (w.Send c).queue ++ d ∧
      d.Sublist (w.hub.broadcast ++ calls as) := by
    intro w
    obtain ⟨d, hq, hs, -⟩ := run_delivery c as w
    exact ⟨d, hq, (List.sublist_append_left d _).trans hs⟩
  refine ⟨?_, gen⟩
  obtain ⟨d, hq, hs⟩ := gen New
  have h0 : (New.Send c).queue = [] := rfl
  have h1 : New.hub.broadcast = [] := rfl
  rw [hq, h0, List.nil_append]
  simpa [h1] using hs

/-- **C3**, the claim as stated fails: the payload `[112]` is handed to `Broadcast` before
connection `0` is registered, `Run` then takes the registration first and the buffered packet
second, and the payload lands in the `Send` queue of connection `0`. -/
theorem C3_replay_counterexample :
    (0 : ConnPtr) ∉ registrations [Action.Broadcast [112]] ∧
    ((run New [Action.Broadcast [112], Action.register 0, Action.broadcast]).Send 0).queue
      = [[112]] ∧
    [112] ∉ calls [Action.broadcast] := by
  decide

/-- **C3**, amended.  Let connection `c` be registered for the first time after the schedule
`pre`.  Nothing at all is in its `Send` queue at that moment, and whatever the rest of the
schedule appends to it is a subsequence of the packets that were still waiting in
`h.broadcast` when the registration was processed, followed by the payloads of the later
`Broadcast` calls: a packet `Run` has already taken is never delivered to it.  And as long as
no connection has been registered, no `Send` queue receives anything. -/
theorem C3_no_replay_of_processed (pre post : List Action) (c : ConnPtr)
    (hfresh : c ∉ registrations pre) :
    ((run New pre).Send c).queue = [] ∧
    ((run New (pre ++ Action.register c :: post)).Send c).queue.Sublist
      ((run New pre).hub.broadcast ++ calls post) ∧
    (registrations pre = [] → ∀ d : ConnPtr, ((run New pre).Send d).queue = []) := by
  have hempty : ∀ d : ConnPtr, d ∉ registrations pre → ((run New pre).Send d).queue = [] := by
    intro d hd
    have h := (run_unregistered d pre New (by simp [New, ConnMap.empty]) hd).1
    rw [h]; rfl
  refine ⟨hempty c hfresh, ?_, ?_⟩
  · rw [run_append]
    obtain ⟨d, hq, hs, -⟩ := run_delivery c (Action.register c :: post) (run New pre)
    rw [hq, hempty c hfresh, List.nil_append]
    have hc : calls (Action.register c :: post) = calls post := rfl
    rw [hc] at hs
    exact (List.sublist_append_left d _).trans hs
  · intro hnone d
    exact hempty d (by simp [hnone])

theorem C3_no_replay_of_processed_witness :
    (0 : ConnPtr) ∉ registrations [Action.Broadcast [112], Action.broadcast, Action.Broadcast [113]] ∧
    ((run New ([Action.Broadcast [112], Action.broadcast, Action.Broadcast [113]] ++
        Action.register 0 :: [Action.broadcast, Action.broadcast])).Send 0).queue.Sublist
      ((run New [Action.Broadcast [112], Action.broadcast, Action.Broadcast [113]]).hub.broadcast
        ++ calls [Action.broadcast, Action.broadcast]) :=
  ⟨by decide, (C3_no_replay_of_processed _ _ 0 (by decide)).2.1⟩

/-- **C4** No duplicate or stale delivery.  In the state `Run` has reached after any
schedule of registrations, unregistrations and broadcasts, a connection is a key of the
`connections` map at most once however often it was registered; the next action leaves the
`Send` queue of a connection that is not registered untouched and appends at most one
payload, the packet itself, to any queue; and over the whole schedule a queue has received
no more payloads than `Run` has processed broadcasts. -/
theorem C4_no_stale_no_duplicate (as : List Action) (a : Action) (c : ConnPtr) :
    (run New as).hub.connections.keys.count c ≤ 1 ∧
    (c ∉ (run New as).hub.connections.keys →
      ((step (run New as) a).Send c).queue = ((run New as).Send c).queue) ∧
    (∃ d : List Bytes,
      ((step (run New as) a).Send c).queue = ((run New as).Send c).queue ++ d ∧
      d.length ≤ [a].count Action.broadcast ∧
      (d ++ (step (run New as) a).hub.broadcast).Sublist
        ((run New as).hub.broadcast ++ calls [a])) ∧
    ((run New as).Send c).queue.length ≤ as.count Action.broadcast := by
  refine ⟨?_, ?_, ?_, ?_⟩
  · exact List.nodup_iff_count_le_one.mp (run New as).hub.connections.nodup c
  · intro hc
    obtain ⟨d, hq, -, hd, -⟩ := step_delivery (run New as) a c
    rw [hq, hd hc, List.append_nil]
  · obtain ⟨d, hq, hs, -, hl⟩ := step_delivery (run New as) a c
    exact ⟨d, hq, hl, hs⟩
  · obtain ⟨d, hq, -, hl⟩ := run_delivery c as New
    have h0 : (New.Send c).queue = [] := rfl
    rw [hq, h0, List.nil_append]
    exact hl

/-- **C5**, the claim as stated fails for "any event sequence": when connection `0` is
registered again after its unregistration, the second unregistration finds it in the map and
closes its `Send` queue a second time, which is the run-time panic of closing a closed
channel. -/
theorem C5_double_close_counterexample :
    (run New [Action.register 0, Action.unregister 0,
      Action.register 0, Action.unregister 0]).panicked = some Panic.closeOfClosedChannel ∧
    ((run New [Action.register 0, Action.unregister 0]).Send 0).closed = true := by
  decide

/-- **C5**, amended.  Over any schedule that registers no connection twice, `Run` never
closes a closed `Send` queue (nor panics at all), and in the state it has reached:
unregistering a registered connection removes it from `connections` and closes its `Send`
queue, keeping what is pending in it and touching no other connection; unregistering a
connection that is not registered, a second unregistration included, leaves the whole state
as it is. -/
theorem C5_unregister_idempotent (as : List Action) (c : ConnPtr)
    (hdistinct : (registrations as).Nodup) :
    (run New as).panicked = none ∧
    (c ∈ (run New as).hub.connections.keys →
      (step (run New as) (Action.unregister c)).panicked = none ∧
      c ∉ (step (run New as) (Action.unregister c)).hub.connections.keys ∧
      (step (run New as) (Action.unregister c)).Send c =
        { queue := ((run New as).Send c).queue, closed := true } ∧
      ((run New as).Send c).closed = false ∧
      (∀ d, d ≠ c → (step (run New as) (Action.unregister c)).Send d = (run New as).Send d) ∧
      step (step (run New as) (Action.unregister c)) (Action.unregister c)
        = step (run New as) (Action.unregister c)) ∧
    (c ∉ (run New as).hub.connections.keys →
      step (run New as) (Action.unregister c) = run New as) := by
  have hsafe : HubSafe (run New as) [] := run_hubSafe as New (New_hubSafe _) hdistinct
  have hp : (run New as).panicked = none := hsafe.1
  have habsent : ∀ w : World, c ∉ w.hub.connections.keys → step w (Action.unregister c) = w := by
    intro w hc
    cases hpw : w.panicked with
    | some p => exact step_panicked w _ (by simp [hpw])
    | none =>
      have : w.hub.connections.contains c = false := by simpa [ConnMap.contains] using hc
      simp [step, hpw, runUnregister, this]
  refine ⟨hp, ?_, habsent _⟩
  intro hc
  have hopen : ((run New as).Send c).closed = false := hubSafe_open _ _ hsafe c hc
  have h1 : (run New as).hub.connections.contains c = true := by
    simpa [ConnMap.contains] using hc
  have hs : step (run New as) (Action.unregister c) =
      World.setSend { (run New as) with hub := { (run New as).hub with
          connections := (run New as).hub.connections.delete c } }
        c (Chan.mk ((run New as).Send c).queue true) := by
    simp [step, hp, runUnregister, h1, Chan.close, hopen]
  have hgone : c ∉ (step (run New as) (Action.unregister c)).hub.connections.keys := by
    rw [hs]
    simpa [ConnMap.delete] using List.Nodup.not_mem_erase (run New as).hub.connections.nodup
  refine ⟨?_, hgone, ?_, hopen, ?_, habsent _ hgone⟩
  · rw [hs]; simpa using hp
  · rw [hs]; simp
  · intro d hd
    rw [hs, setSend_other _ _ _ _ hd]

theorem C5_unregister_idempotent_witness :
    (registrations [Action.register 0, Action.Broadcast [112], Action.broadcast,
      Action.unregister 0, Action.unregister 0, Action.register 1]).Nodup ∧
    (run New [Action.register 0, Action.Broadcast [112], Action.broadcast,
      Action.unregister 0, Action.unregister 0, Action.register 1]).panicked = none :=
  ⟨by decide, (C5_unregister_idempotent _ 0 (by decide)).1⟩

/-! ## The aggregator -/

theorem IndexByte_split (c : Nat) :
    ∀ (u rest : Bytes), c ∉ u → IndexByte (u ++ c :: rest) c = some u.length := by
  intro u
  induction u with
  | nil => intro rest _; simp [IndexByte]
  | cons x u ih =>
    intro rest h
    have hx : x ≠ c := fun e => h (e ▸ List.mem_cons_self _ _)
    have hu : c ∉ u := fun e => h (List.mem_cons_of_mem _ e)
    simp [IndexByte, hx, ih rest hu]

theorem mem_split_first (c : Nat) :
    ∀ s : Bytes, c ∈ s → ∃ u rest, s = u ++ c :: rest ∧ c ∉ u := by
  intro s
  induction s with
  | nil => intro h; exact absurd h (List.not_mem_nil c)
  | cons x s ih =>
    intro h
    by_cases hx : x = c
    · exact ⟨[], s, by simp [hx], List.not_mem_nil c⟩
    · have hs : c ∈ s := by
        rcases List.mem_cons.mp h with e | e
        · exact absurd e.symm hx
        · exact e
      obtain ⟨u, rest, e, hu⟩ := ih hs
      refine ⟨x :: u, rest, by simp [e], ?_⟩
      intro hm
      rcases List.mem_cons.mp hm with e1 | e1
      · exact hx e1.symm
      · exact hu e1

theorem ReadBytes_split (c : Nat) (u rest : Bytes) (h : c ∉ u) :
    Buffer.ReadBytes { unread := u ++ c :: rest } c = (u ++ [c], true, { unread := rest }) := by
  simp [Buffer.ReadBytes, IndexByte_split c u rest h, List.take_append_eq_append_take,
    List.drop_append_eq_append_drop]

theorem writer_tick_split (st : WriterState) (u rest : Bytes) (hrun : st.returned = false)
    (hu : newlineByte ∉ u) (hbuf : st.buf.unread = u ++ newlineByte :: rest) :
    Connection.writer st .tick =
      { buf := { unread := rest }, SendQueue := st.SendQueue ++ [u ++ [newlineByte]],
        returned := false } := by
  have hb : st.buf = { unread := u ++ newlineByte :: rest } := by
    cases hst : st.buf with
    | mk un => rw [hst] at hbuf; simp only at hbuf; rw [hbuf]
  simp [Connection.writer, hrun, hb, ReadBytes_split newlineByte u rest hu]

theorem writer_tick_empty (st : WriterState) (hbuf : st.buf.unread = []) :
    Connection.writer st .tick = st := by
  have hb : st.buf = { unread := [] } := by
    cases hst : st.buf with
    | mk un => rw [hst] at hbuf; simp only at hbuf; rw [hbuf]
  cases hr : st.returned
  · cases st with
    | mk b q r =>
      simp only at hb hr
      subst hb; subst hr
      simp [Connection.writer, Buffer.ReadBytes, IndexByte]
  · simp [Connection.writer, hr]

theorem writer_recv (st : WriterState) (m : Bytes) (hrun : st.returned = false) :
    Connection.writer st (.recv (some m)) =
      { buf := { unread := st.buf.unread ++ m ++ [newlineByte] }, SendQueue := st.SendQueue,
        returned := false } := by
  simp [Connection.writer, hrun, Buffer.Write]

theorem writerRun_cons (st : WriterState) (ev : WriterEvent) (evs : List WriterEvent) :
    Connection.writerRun st (ev :: evs) = Connection.writerRun (Connection.writer st ev) evs :=
  rfl

theorem writerRun_append (st : WriterState) (evs1 evs2 : List WriterEvent) :
    Connection.writerRun st (evs1 ++ evs2) =
      Connection.writerRun (Connection.writerRun st evs1) evs2 := by
  simp [Connection.writerRun, List.foldl_append]

theorem endsInNewline_rest (u rest : Bytes) (h : EndsInNewline (u ++ newlineByte :: rest)) :
    EndsInNewline rest := by
  cases rest with
  | nil => exact Or.inl rfl
  | cons b rest =>
    right
    rcases h with h | h
    · simp at h
    · have e : u ++ newlineByte :: b :: rest = (u ++ [newlineByte]) ++ (b :: rest) := by simp
      rw [e, List.getLast?_append_of_ne_nil _ (List.cons_ne_nil b rest)] at h
      exact h

/-- One event that is not the closing of `Send` keeps the writer running, keeps its buffer
empty or newline-terminated, and moves bytes only from the buffer's front to `SendQueue`. -/
theorem writer_step_conserves (st : WriterState) (ev : WriterEvent)
    (hrun : st.returned = false) (hinv : EndsInNewline st.buf.unread)
    (hev : ev ≠ WriterEvent.recv none) :
    (Connection.writer st ev).returned = false ∧
    EndsInNewline (Connection.writer st ev).buf.unread ∧
    (Connection.writer st ev).SendQueue.flatten ++ (Connection.writer st ev).buf.unread =
      st.SendQueue.flatten ++ st.buf.unread
        ++ ((received [ev]).map (· ++ [newlineByte])).flatten := by
  cases ev with
  | recv m =>
    cases m with
    | none => exact absurd rfl hev
    | some m =>
      rw [writer_recv st m hrun]
      refine ⟨rfl, Or.inr ?_, ?_⟩
      · simp [List.getLast?_concat]
      · simp [received]
  | tick =>
    rcases hinv with h | h
    · rw [writer_tick_empty st h]
      exact ⟨hrun, Or.inl h, by simp [received]⟩
    · have hmem : newlineByte ∈ st.buf.unread := List.mem_of_mem_getLast? h
      obtain ⟨u, rest, e, hu⟩ := mem_split_first newlineByte _ hmem
      rw [writer_tick_split st u rest hrun hu e]
      refine ⟨rfl, ?_, ?_⟩
      · exact endsInNewline_rest u rest (e ▸ Or.inr h)
      · simp [received, e]

theorem writerRun_conserves :
    ∀ (evs : List WriterEvent) (st : WriterState),
      st.returned = false → EndsInNewline st.buf.unread → WriterEvent.recv none ∉ evs →
      (Connection.writerRun st evs).returned = false ∧
      EndsInNewline (Connection.writerRun st evs).buf.unread ∧
      (Connection.writerRun st evs).SendQueue.flatten ++ (Connection.writerRun st evs).buf.unread =
        st.SendQueue.flatten ++ st.buf.unread
          ++ ((received evs).map (· ++ [newlineByte])).flatten := by
  intro evs
  induction evs with
  | nil => intro st h1 h2 _; exact ⟨h1, h2, by simp [Connection.writerRun, received]⟩
  | cons ev evs ih =>
    intro st h1 h2 h3
    have hev : ev ≠ WriterEvent.recv none := fun e => h3 (e ▸ List.mem_cons_self _ _)
    have hevs : WriterEvent.recv none ∉ evs := fun e => h3 (List.mem_cons_of_mem _ e)
    obtain ⟨a1, a2, a3⟩ := writer_step_conserves st ev h1 h2 hev
    obtain ⟨b1, b2, b3⟩ := ih (Connection.writer st ev) a1 a2 hevs
    refine ⟨by rw [writerRun_cons]; exact b1, by rw [writerRun_cons]; exact b2, ?_⟩
    rw [writerRun_cons, b3, a3]
    have hr : received (ev :: evs) = received [ev] ++ received evs := by
      cases ev with
      | recv m => cases m <;> simp [received]
      | tick => simp [received]
    rw [hr]
    simp

theorem writerRun_recvs :
    ∀ (ms : List Bytes) (st : WriterState), st.returned = false →
      Connection.writerRun st (ms.map (fun m => WriterEvent.recv (some m))) =
        { buf := { unread := st.buf.unread ++ (ms.map (· ++ [newlineByte])).flatten },
          SendQueue := st.SendQueue, returned := false } := by
  intro ms
  induction ms with
  | nil =>
    intro st h
    cases st with
    | mk b q r =>
      simp only at h
      subst h
      simp [Connection.writerRun]
  | cons m ms ih =>
    intro st h
    rw [List.map_cons, writerRun_cons, writer_recv st m h, ih _ rfl]
    simp

theorem writerRun_ticks :
    ∀ (k : Nat) (ms : List Bytes) (sq : List Bytes),
      (∀ m ∈ ms, newlineByte ∉ m) → k ≤ ms.length →
      Connection.writerRun
          { buf := { unread := (ms.map (· ++ [newlineByte])).flatten }, SendQueue := sq,
            returned := false }
          (List.replicate k WriterEvent.tick) =
        { buf := { unread := ((ms.drop k).map (· ++ [newlineByte])).flatten },
          SendQueue := sq ++ (ms.take k).map (· ++ [newlineByte]), returned := false } := by
  intro k
  induction k with
  | zero => intro ms sq _ _; simp [Connection.writerRun]
  | succ k ih =>
    intro ms sq hms hk
    cases ms with
    | nil => simp at hk
    | cons m ms =>
      have hm : newlineByte ∉ m := hms m (List.mem_cons_self _ _)
      have hrest : ∀ x ∈ ms, newlineByte ∉ x := fun x hx => hms x (List.mem_cons_of_mem _ hx)
      have hk1 : k ≤ ms.length := by simpa using hk
      rw [List.replicate_succ, writerRun_cons]
      rw [writer_tick_split _ m ((ms.map (· ++ [newlineByte])).flatten) rfl hm (by simp)]
      rw [ih ms _ hrest hk1]
      simp

/-! ## The claims about the aggregator -/

/-- **C7** Aggregator tick.  On a tick of a running `Connection.writer`: if the buffer holds
a `'\n'`, the bytes up to and including the first `'\n'` are taken off the front of the
buffer and sent as one chunk on `SendQueue`, and the rest of the buffer is what is left; if
the buffer is empty nothing is sent and the buffer stays empty. -/
theorem C7_aggregator_tick (st : WriterState) (hrun : st.returned = false) :
    (newlineByte ∈ st.buf.unread →
      ∃ unit rest : Bytes,
        st.buf.unread = unit ++ newlineByte :: rest ∧ newlineByte ∉ unit ∧
        Connection.writer st WriterEvent.tick =
          { buf := { unread := rest }, SendQueue := st.SendQueue ++ [unit ++ [newlineByte]],
            returned := false }) ∧
    (st.buf.unread = [] → Connection.writer st WriterEvent.tick = st) := by
  refine ⟨?_, writer_tick_empty st⟩
  intro hmem
  obtain ⟨u, rest, e, hu⟩ := mem_split_first newlineByte _ hmem
  exact ⟨u, rest, e, hu, writer_tick_split st u rest hrun hu e⟩

theorem C7_aggregator_tick_witness :
    (Connection.writerRun writerStart
      [WriterEvent.recv (some [97]), WriterEvent.recv (some [98])]).returned = false ∧
    (newlineByte ∈ (Connection.writerRun writerStart
        [WriterEvent.recv (some [97]), WriterEvent.recv (some [98])]).buf.unread →
      ∃ unit rest : Bytes,
        (Connection.writerRun writerStart
          [WriterEvent.recv (some [97]), WriterEvent.recv (some [98])]).buf.unread
            = unit ++ newlineByte :: rest ∧ newlineByte ∉ unit ∧
        Connection.writer (Connection.writerRun writerStart
          [WriterEvent.recv (some [97]), WriterEvent.recv (some [98])]) WriterEvent.tick =
          { buf := { unread := rest },
            SendQueue := (Connection.writerRun writerStart
              [WriterEvent.recv (some [97]), WriterEvent.recv (some [98])]).SendQueue
                ++ [unit ++ [newlineByte]],
            returned := false }) :=
  ⟨by decide, (C7_aggregator_tick _ (by decide)).1⟩

/-- **C8**, the claim as stated fails: two payloads `[97]` and `[98]` are taken from `Send`
before the tick, and the tick sends a chunk that holds the first one only; the second stays
in the buffer until the tick after. -/
theorem C8_no_coalescing_counterexample :
    (Connection.writerRun writerStart
      [WriterEvent.recv (some [97]), WriterEvent.recv (some [98]), WriterEvent.tick]).SendQueue
        = [[97, 10]] ∧
    (Connection.writerRun writerStart
      [WriterEvent.recv (some [97]), WriterEvent.recv (some [98]), WriterEvent.tick]).buf.unread
        = [98, 10] ∧
    (Connection.writerRun writerStart
      [WriterEvent.recv (some [97]), WriterEvent.recv (some [98]), WriterEvent.tick]).SendQueue
        ≠ [[97, 10, 98, 10]] := by
  decide

/-- **C8**, amended.  Payloads taken from `Send` between two ticks are appended to the buffer
in order, each followed by `'\n'`, and are sent one per tick: when a running writer with an
empty buffer has taken the newline-free payloads `ms`, the next `k ≤ |ms|` ticks send `k`
chunks, the first `k` payloads each followed by `'\n'`, in order, and the remaining payloads
stay in the buffer. -/
theorem C8_one_unit_per_tick (st : WriterState) (ms : List Bytes) (k : Nat)
    (hrun : st.returned = false) (hbuf : st.buf.unread = [])
    (hms : ∀ m ∈ ms, newlineByte ∉ m) (hk : k ≤ ms.length) :
    Connection.writerRun st
        (ms.map (fun m => WriterEvent.recv (some m)) ++ List.replicate k WriterEvent.tick) =
      { buf := { unread := ((ms.drop k).map (· ++ [newlineByte])).flatten },
        SendQueue := st.SendQueue ++ (ms.take k).map (· ++ [newlineByte]),
        returned := false } := by
  rw [writerRun_append, writerRun_recvs ms st hrun, hbuf, List.nil_append]
  exact writerRun_ticks k ms st.SendQueue hms hk

theorem C8_one_unit_per_tick_witness :
    writerStart.returned = false ∧ writerStart.buf.unread = [] ∧
    (∀ m ∈ [[97], [98], [99]], newlineByte ∉ m) ∧ 1 ≤ [[97], [98], [99]].length ∧
    Connection.writerRun writerStart
        ([[97], [98], [99]].map (fun m => WriterEvent.recv (some m))
          ++ List.replicate 1 WriterEvent.tick) =
      { buf := { unread := (([[97], [98], [99]].drop 1).map (· ++ [newlineByte])).flatten },
        SendQueue := writerStart.SendQueue ++ ([[97], [98], [99]].take 1).map (· ++ [newlineByte]),
        returned := false } :=
  ⟨by decide, by decide, by decide, by decide,
    C8_one_unit_per_tick writerStart [[97], [98], [99]] 1 (by decide) (by decide) (by decide)
      (by decide)⟩

/-- **C9** Aggregation neither loses, reorders nor interleaves bytes.  For every sequence of
payload-received and tick events of `Connection.writer` before `Send` is closed, the chunks
sent on `SendQueue` so far, concatenated, followed by the bytes still in the buffer, are
exactly the received payloads in arrival order, each followed by `'\n'`; the writer is still
running. -/
theorem C9_aggregation_conserves (evs : List WriterEvent)
    (hopen : WriterEvent.recv none ∉ evs) :
    (Connection.writerRun writerStart evs).SendQueue.flatten
        ++ (Connection.writerRun writerStart evs).buf.unread =
      ((received evs).map (· ++ [newlineByte])).flatten ∧
    (Connection.writerRun writerStart evs).returned = false := by
  obtain ⟨h1, -, h3⟩ := writerRun_conserves evs writerStart rfl (Or.inl rfl) hopen
  refine ⟨?_, h1⟩
  rw [h3]
  simp [writerStart]

theorem C9_aggregation_conserves_witness :
    WriterEvent.recv none ∉ [WriterEvent.recv (some [97, 10, 98]), WriterEvent.tick,
      WriterEvent.recv (some [99]), WriterEvent.tick, WriterEvent.tick] ∧
    (Connection.writerRun writerStart [WriterEvent.recv (some [97, 10, 98]), WriterEvent.tick,
      WriterEvent.recv (some [99]), WriterEvent.tick, WriterEvent.tick]).SendQueue.flatten
        ++ (Connection.writerRun writerStart [WriterEvent.recv (some [97, 10, 98]),
          WriterEvent.tick, WriterEvent.recv (some [99]), WriterEvent.tick,
          WriterEvent.tick]).buf.unread =
      ((received [WriterEvent.recv (some [97, 10, 98]), WriterEvent.tick,
        WriterEvent.recv (some [99]), WriterEvent.tick, WriterEvent.tick]).map
          (· ++ [newlineByte])).flatten :=
  ⟨by decide, (C9_aggregation_conserves _ (by decide)).1⟩

theorem writerRun_ticks_empty (st : WriterState) (hbuf : st.buf.unread = []) :
    ∀ n : Nat, Connection.writerRun st (List.replicate n WriterEvent.tick) = st := by
  intro n
  induction n with
  | zero => rfl
  | succ n ih => rw [List.replicate_succ, writerRun_cons, writer_tick_empty st hbuf, ih]

/-- **C6** Round trip of one broadcast.  Let `p` hold no `'\n'`, and let it be broadcast
while connection `c` is registered and idle: nothing else pending on `h.broadcast` or in its
`Send` queue, its writer running with an empty buffer.  `Run` puts exactly `p` on `Send`;
ticks that fire before the writer has taken it send nothing; the writer takes it, leaving
`Send` empty; and the next tick sends exactly one chunk on `SendQueue`, the bytes of `p`
followed by a single `'\n'`, and empties the buffer, so that a further tick sends nothing. -/
theorem C6_round_trip (w : World) (c : ConnPtr) (p : Bytes) (st : WriterState) (n : Nat)
    (hlive : w.panicked = none)
    (hopen : ∀ d ∈ w.hub.connections.keys, (w.Send d).closed = false)
    (hreg : c ∈ w.hub.connections.keys)
    (hidle : w.hub.broadcast = [])
    (hsend : (w.Send c).queue = [])
    (hrun : st.returned = false)
    (hbuf : st.buf.unread = [])
    (hp : newlineByte ∉ p) :
    ((run w [Action.Broadcast p, Action.broadcast]).Send c).queue = [p] ∧
    Connection.writerRun st (List.replicate n WriterEvent.tick) = st ∧
    ((Connection.writerRecv (run w [Action.Broadcast p, Action.broadcast]) c st).1.Send c).queue
      = [] ∧
    Connection.writer
        (Connection.writerRecv (run w [Action.Broadcast p, Action.broadcast]) c st).2
        WriterEvent.tick =
      { buf := { unread := [] }, SendQueue := st.SendQueue ++ [p ++ [newlineByte]],
        returned := false } ∧
    Connection.writer
        { buf := { unread := [] }, SendQueue := st.SendQueue ++ [p ++ [newlineByte]],
          returned := false }
        WriterEvent.tick =
      { buf := { unread := [] }, SendQueue := st.SendQueue ++ [p ++ [newlineByte]],
        returned := false } := by
  have h1 : step w (Action.Broadcast p) = Broadcast w p := by simp [step, hlive]
  have hb : (Broadcast w p).hub.broadcast = p :: [] := by simp [Broadcast, hidle]
  have hrunw : run w [Action.Broadcast p, Action.broadcast] =
      step (Broadcast w p) Action.broadcast := by
    rw [run_cons, run_cons, run_nil, h1]
  have hch : (step (Broadcast w p) Action.broadcast).Send c =
      { queue := [p], closed := false } := by
    have key := fanOut_open_send p (Broadcast w p).hub.connections.keys
      { Broadcast w p with hub := { (Broadcast w p).hub with broadcast := [] } }
      (Broadcast w p).hub.connections.nodup hlive hopen c hreg
    rw [step_broadcast_eq (Broadcast w p) p [] hb hlive]
    refine key.trans ?_
    have : (w.Send c).queue = [] := hsend
    simp [Broadcast, this]
  have hrecv : Connection.writerRecv (step (Broadcast w p) Action.broadcast) c st =
      ((step (Broadcast w p) Action.broadcast).setSend c { queue := [], closed := false },
        Connection.writer st (WriterEvent.recv (some p))) := by
    simp [Connection.writerRecv, hrun, hch, Chan.recv]
  rw [hrunw, hrecv, hch]
  refine ⟨rfl, writerRun_ticks_empty st hbuf n, by simp, ?_, writer_tick_empty _ rfl⟩
  rw [writer_recv st p hrun, hbuf]
  exact writer_tick_split _ p [] rfl hp (by simp)

theorem C6_round_trip_witness :
    (run New [Action.register 7]).panicked = none ∧
    (∀ d ∈ (run New [Action.register 7]).hub.connections.keys,
      ((run New [Action.register 7]).Send d).closed = false) ∧
    (7 : ConnPtr) ∈ (run New [Action.register 7]).hub.connections.keys ∧
    (run New [Action.register 7]).hub.broadcast = [] ∧
    ((run New [Action.register 7]).Send 7).queue = [] ∧
    writerStart.returned = false ∧ writerStart.buf.unread = [] ∧
    newlineByte ∉ planePacket ∧
    Connection.writer
        (Connection.writerRecv
          (run (run New [Action.register 7]) [Action.Broadcast planePacket, Action.broadcast])
          7 writerStart).2
        WriterEvent.tick =
      { buf := { unread := [] },
        SendQueue := writerStart.SendQueue ++ [planePacket ++ [newlineByte]],
        returned := false } :=
  ⟨by decide, by decide, by decide, by decide, by decide, by decide, by decide, by decide,
    (C6_round_trip (run New [Action.register 7]) 7 planePacket writerStart 2
      (by decide) (by decide) (by decide) (by decide) (by decide) (by decide) (by decide)
      (by decide)).2.2.2.1⟩

/-! ## The reader -/

theorem HasPrefix_newline (b : Nat) (rest : Bytes) :
    HasPrefix (b :: rest) [10] = decide (b = 10) := by
  cases rest <;> simp [HasPrefix]

theorem replaceFrom_newline :
    ∀ s : Bytes, replaceFrom [10] [32] s 0 none = s.map (fun b => if b = 10 then 32 else b) := by
  intro s
  induction s with
  | nil => rfl
  | cons b s ih =>
    have hp := HasPrefix_newline b s
    by_cases hb : b = 10
    · subst hb
      simp only [replaceFrom, hp]
      simp [ih]
    · simp only [replaceFrom, hp, ih]
      simp [hb]

theorem Replace_newline (s : Bytes) (h : newline ≠ []) :
    Replace s newline space (-1) h = s.map (fun b => if b = 10 then 32 else b) := by
  simp [Replace, newline, space, replaceFrom_newline]

theorem within_trans {a b c : Bytes} (h1 : Within a b) (h2 : Within b c) : Within a c := by
  obtain ⟨p1, s1, e1⟩ := h1
  obtain ⟨p2, s2, e2⟩ := h2
  exact ⟨p2 ++ p1, s1 ++ s2, by rw [e2, e1]; simp⟩

theorem within_drop (s : Bytes) (k : Nat) : Within (s.drop k) s :=
  ⟨s.take k, [], by simp⟩

theorem within_take (s : Bytes) (k : Nat) : Within (s.take k) s :=
  ⟨[], s.drop k, by simp⟩

theorem within_reverse {a b : Bytes} (h : Within a b) : Within a.reverse b.reverse := by
  obtain ⟨p, s, e⟩ := h
  exact ⟨s.reverse, p.reverse, by rw [e]; simp⟩

theorem within_not_mem {a b : Bytes} (h : Within a b) (x : Nat) (hx : x ∉ b) : x ∉ a := by
  obtain ⟨p, s, e⟩ := h
  intro ha
  exact hx (by rw [e]; simp [ha])

theorem asciiSpace_of_ge (b : Nat) (h : RuneSelf ≤ b) : asciiSpace b = false := by
  simp only [RuneSelf] at h
  simp only [asciiSpace, decide_eq_false_iff_not]
  omega

theorem asciiSpace_of_not_IsSpace (b : Nat) (h : IsSpace b = false) : asciiSpace b = false := by
  cases ha : asciiSpace b with
  | false => rfl
  | true =>
    simp only [asciiSpace, decide_eq_true_eq] at ha
    have : IsSpace b = true := by
      simp only [IsSpace]
      have hb : b ≤ 0xFF := by omega
      simp only [hb, if_true, decide_eq_true_eq]
      omega
    rw [this] at h
    exact absurd h (by decide)

theorem trimSpaceScan_spec :
    ∀ s : Bytes,
      (∃ pre : Bytes, s = pre ++ (trimSpaceScan s).2) ∧
      ((trimSpaceScan s).1 = false →
        ∀ b, (trimSpaceScan s).2.head? = some b → b < RuneSelf ∧ asciiSpace b = false) := by
  intro s
  induction s with
  | nil => exact ⟨⟨[], rfl⟩, fun _ b hb => by simp [trimSpaceScan] at hb⟩
  | cons c s ih =>
    by_cases h1 : c ≥ RuneSelf
    · simp only [trimSpaceScan, h1, if_true]
      exact ⟨⟨[], rfl⟩, fun h => absurd h (by decide)⟩
    · by_cases h2 : asciiSpace c = true
      · simp only [trimSpaceScan, h1, if_false, h2, if_true]
        obtain ⟨⟨pre, e⟩, hh⟩ := ih
        exact ⟨⟨c :: pre, by rw [List.cons_append, ← e]⟩, hh⟩
      · have h3 : asciiSpace c = false := by simpa using h2
        simp only [trimSpaceScan, h1, if_false, h3]
        refine ⟨⟨[], rfl⟩, fun _ b hb => ?_⟩
        simp only [Bool.false_eq_true, if_false, List.head?_cons, Option.some.injEq] at hb
        subst hb
        exact ⟨by omega, h3⟩

theorem indexFuncFrom_spec (f : Nat → Bool) (truth : Bool) :
    ∀ (s : Bytes) (skip start i : Nat), indexFuncFrom f truth s skip start = some i →
      ∃ j, i = start + j ∧ j < s.length ∧
        ∀ b, (s.drop j).head? = some b → b < RuneSelf → f b = truth := by
  intro s
  induction s with
  | nil => intro skip start i h; simp [indexFuncFrom] at h
  | cons b s ih =>
    intro skip start i h
    cases skip with
    | succ skip =>
      simp only [indexFuncFrom] at h
      obtain ⟨j, e, hj, hb⟩ := ih skip (start + 1) i h
      exact ⟨j + 1, by omega, by simp; omega, by simpa using hb⟩
    | zero =>
      simp only [indexFuncFrom] at h
      by_cases hf : f (if b ≥ RuneSelf then DecodeRune (b :: s) else (b, 1)).1 = truth
      · rw [if_pos hf] at h
        refine ⟨0, by simpa using h.symm, by simp, ?_⟩
        intro b1 hb1 hlt
        simp only [List.drop_zero, List.head?_cons, Option.some.injEq] at hb1
        subst hb1
        have : ¬ (b ≥ RuneSelf) := by omega
        simpa [this] using hf
      · rw [if_neg hf] at h
        obtain ⟨j, e, hj, hb⟩ := ih _ (start + 1) i h
        exact ⟨j + 1, by omega, by simp; omega, by simpa using hb⟩

theorem TrimLeftFunc_within (s : Bytes) (f : Nat → Bool) : Within (TrimLeftFunc s f) s := by
  unfold TrimLeftFunc
  cases indexFunc s f false with
  | none => exact ⟨[], s, by simp⟩
  | some i => exact within_drop s i

theorem TrimLeftFunc_head (s : Bytes) (b : Nat)
    (h : (TrimLeftFunc s IsSpace).head? = some b) : asciiSpace b = false := by
  unfold TrimLeftFunc at h
  cases hi : indexFunc s IsSpace false with
  | none => simp [hi] at h
  | some i =>
    simp only [hi] at h
    obtain ⟨j, e, -, hb⟩ := indexFuncFrom_spec IsSpace false s 0 0 i hi
    have e1 : i = j := by omega
    subst e1
    by_cases hlt : b < RuneSelf
    · exact asciiSpace_of_not_IsSpace b (hb b h hlt)
    · exact asciiSpace_of_ge b (by omega)

theorem head?_take_some (s : Bytes) (k b : Nat) (h : (s.take k).head? = some b) :
    s.head? = some b := by
  cases s with
  | nil => simp at h
  | cons x s =>
    cases k with
    | zero => simp at h
    | succ k => simpa using h

theorem TrimRightFunc_eq_take (s : Bytes) (f : Nat → Bool) :
    ∃ k, TrimRightFunc s f = s.take k := by
  unfold TrimRightFunc
  cases lastIndexFunc s f false with
  | none => exact ⟨0, rfl⟩
  | some i =>
    by_cases h : s.getD i 0 ≥ RuneSelf
    · exact ⟨i + (DecodeRune (s.drop i)).2, by simp only [h, if_true]⟩
    · exact ⟨i + 1, by simp only [h, if_false]⟩

theorem TrimFunc_within (s : Bytes) (f : Nat → Bool) : Within (TrimFunc s f) s := by
  obtain ⟨k, e⟩ := TrimRightFunc_eq_take (TrimLeftFunc s f) f
  unfold TrimFunc
  rw [e]
  exact within_trans (within_take _ k) (TrimLeftFunc_within s f)

theorem TrimFunc_head (s : Bytes) (b : Nat) (h : (TrimFunc s IsSpace).head? = some b) :
    asciiSpace b = false := by
  obtain ⟨k, e⟩ := TrimRightFunc_eq_take (TrimLeftFunc s IsSpace) IsSpace
  unfold TrimFunc at h
  rw [e] at h
  exact TrimLeftFunc_head s b (head?_take_some _ k b h)

theorem DecodeRune_nil : DecodeRune [] = (RuneError, 0) := rfl

theorem DecodeRune_of_ne_nil (p : Bytes) (h : p ≠ []) :
    DecodeRune p = decodeBytes p.length (p.getD 0 0) (p.getD 1 0) (p.getD 2 0) (p.getD 3 0) := by
  have : ¬ p.length < 1 := by
    have := List.length_pos.mpr h
    omega
  simp only [DecodeRune, this, if_false]

theorem runeSize_facts (p0 : Nat) :
    runeSize p0 ≤ 4 ∧ (runeSize p0 = 1 ↔ p0 < 0x80) ∧ (2 ≤ runeSize p0 → 0xC2 ≤ p0) := by
  unfold runeSize
  split_ifs <;>
    refine ⟨by omega, ⟨fun h => by first | omega | simp at h, fun h => by omega⟩,
      fun h => by omega⟩

theorem acceptRange_bounds (p0 : Nat) :
    0x80 ≤ (acceptRange p0).1 ∧ (acceptRange p0).2 ≤ 0xBF := by
  unfold acceptRange
  split_ifs <;> simp

theorem decodeBytes_size (n p0 b1 b2 b3 : Nat) (hn : 1 ≤ n) :
    1 ≤ (decodeBytes n p0 b1 b2 b3).2 ∧ (decodeBytes n p0 b1 b2 b3).2 ≤ n ∧
    (decodeBytes n p0 b1 b2 b3).2 ≤ 4 := by
  have hs := runeSize_facts p0
  unfold decodeBytes
  generalize runeSize p0 = sz at *
  generalize acceptRange p0 = acc at *
  split_ifs <;> simp only <;> omega

theorem decodeBytes_lead (n p0 b1 b2 b3 : Nat) (h2 : 2 ≤ (decodeBytes n p0 b1 b2 b3).2) :
    0xC2 ≤ p0 ∧ 0x80 ≤ b1 ∧
    (3 ≤ (decodeBytes n p0 b1 b2 b3).2 → 0x80 ≤ b2) ∧
    (4 ≤ (decodeBytes n p0 b1 b2 b3).2 → 0x80 ≤ b3) := by
  have hs := runeSize_facts p0
  have ha := acceptRange_bounds p0
  unfold decodeBytes at h2 ⊢
  generalize runeSize p0 = sz at *
  generalize acceptRange p0 = acc at *
  split_ifs at h2 ⊢ <;> simp only at h2 ⊢ <;> omega

theorem decodeBytes_cont (n p0 b1 b2 b3 : Nat) (h2 : 2 ≤ (decodeBytes n p0 b1 b2 b3).2) :
    0x80 ≤ b1 ∧ b1 ≤ 0xBF := by
  have ha := acceptRange_bounds p0
  unfold decodeBytes at h2
  generalize runeSize p0 = sz at *
  generalize acceptRange p0 = acc at *
  split_ifs at h2 <;> simp only at h2 <;> omega

theorem decodeBytes_invalid (n p0 b1 b2 b3 : Nat) (h0 : 0x80 ≤ p0)
    (h2 : (decodeBytes n p0 b1 b2 b3).2 < 2) : decodeBytes n p0 b1 b2 b3 = (RuneError, 1) := by
  have hs := runeSize_facts p0
  unfold decodeBytes at h2 ⊢
  generalize runeSize p0 = sz at *
  generalize acceptRange p0 = acc at *
  split_ifs at h2 ⊢ <;> simp only at h2 ⊢ <;> omega

theorem DecodeRune_size_le (p : Bytes) : (DecodeRune p).2 ≤ p.length := by
  cases p with
  | nil => simp [DecodeRune]
  | cons a p =>
    rw [DecodeRune_of_ne_nil _ (List.cons_ne_nil a p)]
    exact (decodeBytes_size _ _ _ _ _ (by simp)).2.1

theorem DecodeRune_size_pos (p : Bytes) (h : p ≠ []) : 1 ≤ (DecodeRune p).2 := by
  rw [DecodeRune_of_ne_nil p h]
  exact (decodeBytes_size _ _ _ _ _ (List.length_pos.mpr h)).1

theorem DecodeRune_bytes (p : Bytes) (k : Nat) (h2 : 2 ≤ (DecodeRune p).2)
    (hk : k < (DecodeRune p).2) : RuneSelf ≤ p.getD k 0 := by
  have hp : p ≠ [] := by
    intro e
    rw [e, DecodeRune_nil] at h2
    simp at h2
  rw [DecodeRune_of_ne_nil p hp] at h2 hk
  obtain ⟨a0, a1, a2, a3⟩ := decodeBytes_lead _ _ _ _ _ h2
  have hsz := (decodeBytes_size p.length (p.getD 0 0) (p.getD 1 0) (p.getD 2 0) (p.getD 3 0)
    (List.length_pos.mpr hp))
  have h4 := hsz.2.2
  simp only [RuneSelf]
  have hk' : k = 0 ∨ k = 1 ∨ k = 2 ∨ k = 3 := by omega
  rcases hk' with e | e | e | e <;> subst e
  · omega
  · omega
  · exact a2 (by omega)
  · exact a3 (by omega)

theorem lastRuneStart_le (p : Bytes) (lim : Nat) : ∀ n : Nat, lastRuneStart p lim n ≤ n := by
  intro n
  induction n with
  | zero => simp [lastRuneStart]
  | succ n ih =>
    simp only [lastRuneStart]
    split_ifs <;> omega

theorem getD_drop (p : Bytes) (i k : Nat) : (p.drop i).getD k 0 = p.getD (i + k) 0 := by
  simp [List.getD_eq_getElem?_getD, List.getElem?_drop]

theorem getD_take (p : Bytes) (n k : Nat) (h : k < n) : (p.take n).getD k 0 = p.getD k 0 := by
  simp [List.getD_eq_getElem?_getD, List.getElem?_take, h]

/-- The rune `DecodeLastRune` reports ends the slice, and when the last byte is not ASCII
neither is the first byte of that rune. -/
theorem DecodeLastRune_first (p : Bytes) (hp : p ≠ [])
    (hlast : RuneSelf ≤ p.getD (p.length - 1) 0) :
    1 ≤ (DecodeLastRune p).2 ∧ (DecodeLastRune p).2 ≤ p.length ∧
    RuneSelf ≤ p.getD (p.length - (DecodeLastRune p).2) 0 := by
  have hlen : 0 < p.length := List.length_pos.mpr hp
  have h0 : ¬ p.length = 0 := by omega
  have h1 : ¬ p.getD (p.length - 1) 0 < RuneSelf := by omega
  simp only [DecodeLastRune, h0, if_false, h1]
  have hs := lastRuneStart_le p (p.length - UTFMax) (p.length - 1)
  by_cases hne : lastRuneStart p (p.length - UTFMax) (p.length - 1)
      + (DecodeRune (p.drop (lastRuneStart p (p.length - UTFMax) (p.length - 1)))).2 ≠ p.length
  · rw [if_pos hne]
    exact ⟨Nat.le_refl 1, hlen, hlast⟩
  · rw [if_neg hne]
    have he : lastRuneStart p (p.length - UTFMax) (p.length - 1)
      + (DecodeRune (p.drop (lastRuneStart p (p.length - UTFMax) (p.length - 1)))).2
        = p.length := by omega
    refine ⟨by omega, by omega, ?_⟩
    by_cases h2 : 2 ≤ (DecodeRune (p.drop (lastRuneStart p (p.length - UTFMax) (p.length - 1)))).2
    · have := DecodeRune_bytes _ 0 h2 (by omega)
      rw [getD_drop] at this
      have e : p.length - (DecodeRune (p.drop (lastRuneStart p (p.length - UTFMax)
          (p.length - 1)))).2 = lastRuneStart p (p.length - UTFMax) (p.length - 1) + 0 := by
        omega
      rw [e]
      exact this
    · have e : p.length - (DecodeRune (p.drop (lastRuneStart p (p.length - UTFMax)
          (p.length - 1)))).2 = p.length - 1 := by omega
      rw [e]
      exact hlast

theorem lastIndexFuncFrom_spec (s : Bytes) (f : Nat → Bool) (truth : Bool) :
    ∀ (i skip k : Nat), i ≤ s.length → lastIndexFuncFrom s f truth i skip = some k →
      k < i ∧ (s.getD k 0 < RuneSelf → f (s.getD k 0) = truth) := by
  intro i
  induction i with
  | zero => intro skip k _ h; simp [lastIndexFuncFrom] at h
  | succ i ih =>
    intro skip k hi h
    cases skip with
    | succ skip =>
      simp only [lastIndexFuncFrom] at h
      obtain ⟨h1, h2⟩ := ih skip k (by omega) h
      exact ⟨by omega, h2⟩
    | zero =>
      simp only [lastIndexFuncFrom] at h
      by_cases hf : f (if s.getD i 0 ≥ RuneSelf then DecodeLastRune (s.take (i + 1))
          else (s.getD i 0, 1)).1 = truth
      · rw [if_pos hf] at h
        have hk : k = i + 1 - (if s.getD i 0 ≥ RuneSelf then DecodeLastRune (s.take (i + 1))
          else (s.getD i 0, 1)).2 := by
          simpa using h.symm
        by_cases hc : s.getD i 0 ≥ RuneSelf
        · simp only [hc, if_true] at hk hf
          have hlen : (s.take (i + 1)).length = i + 1 := by
            rw [List.length_take]; omega
          have hne : s.take (i + 1) ≠ [] := by
            intro e
            rw [e] at hlen
            simp at hlen
          have hlast : RuneSelf ≤ (s.take (i + 1)).getD ((s.take (i + 1)).length - 1) 0 := by
            rw [hlen, getD_take s (i + 1) (i + 1 - 1) (by omega)]
            simpa using hc
          obtain ⟨a1, a2, a3⟩ := DecodeLastRune_first (s.take (i + 1)) hne hlast
          rw [hlen] at a2 a3
          rw [getD_take s (i + 1) _ (by omega)] at a3
          rw [← hk] at a3
          exact ⟨by omega, fun hlt => absurd a3 (by omega)⟩
        · simp only [hc, if_false] at hk hf
          have : k = i := by omega
          subst this
          exact ⟨by omega, fun _ => hf⟩
      · rw [if_neg hf] at h
        obtain ⟨h1, h2⟩ := ih _ k (by omega) h
        exact ⟨by omega, h2⟩

theorem getLast?_take_succ (s : Bytes) (n : Nat) (h : n < s.length) :
    (s.take (n + 1)).getLast? = some (s.getD n 0) := by
  rw [List.getLast?_eq_getElem?]
  have hlen : (s.take (n + 1)).length = n + 1 := by
    rw [List.length_take]; omega
  rw [hlen]
  simp [List.getElem?_take, List.getD_eq_getElem?_getD, List.getElem?_eq_getElem h]

theorem TrimRightFunc_last (s : Bytes) (b : Nat)
    (h : (TrimRightFunc s IsSpace).getLast? = some b) : asciiSpace b = false := by
  unfold TrimRightFunc at h
  cases hi : lastIndexFunc s IsSpace false with
  | none => simp [hi] at h
  | some i =>
    simp only [hi] at h
    obtain ⟨hlt, hsp⟩ := lastIndexFuncFrom_spec s IsSpace false s.length 0 i (Nat.le_refl _) hi
    by_cases hc : s.getD i 0 ≥ RuneSelf
    · simp only [hc, if_true] at h
      have hlen : (s.drop i).length = s.length - i := by simp
      have hne : s.drop i ≠ [] := by
        intro e
        rw [e] at hlen
        simp at hlen
        omega
      have hpos := DecodeRune_size_pos (s.drop i) hne
      have hle := DecodeRune_size_le (s.drop i)
      have e : i + (DecodeRune (s.drop i)).2 = (i + (DecodeRune (s.drop i)).2 - 1) + 1 := by omega
      rw [e, getLast?_take_succ s _ (by omega)] at h
      simp only [Option.some.injEq] at h
      subst h
      apply asciiSpace_of_ge
      by_cases h2 : 2 ≤ (DecodeRune (s.drop i)).2
      · have := DecodeRune_bytes (s.drop i) ((DecodeRune (s.drop i)).2 - 1) h2 (by omega)
        rw [getD_drop] at this
        have e2 : i + ((DecodeRune (s.drop i)).2 - 1) = i + (DecodeRune (s.drop i)).2 - 1 := by
          omega
        rw [e2] at this
        exact this
      · have e2 : i + (DecodeRune (s.drop i)).2 - 1 = i := by omega
        rw [e2]
        exact hc
    · simp only [hc, if_false] at h
      rw [getLast?_take_succ s i hlt] at h
      simp only [Option.some.injEq] at h
      subst h
      exact asciiSpace_of_not_IsSpace _ (hsp (by omega))

theorem TrimFunc_last (s : Bytes) (b : Nat) (h : (TrimFunc s IsSpace).getLast? = some b) :
    asciiSpace b = false :=
  TrimRightFunc_last _ b h

theorem TrimSpace_within (s : Bytes) : Within (TrimSpace s) s := by
  obtain ⟨⟨pre, e⟩, -⟩ := trimSpaceScan_spec s
  have hw1 : Within (trimSpaceScan s).2 s := ⟨pre, [], by simpa using e⟩
  unfold TrimSpace
  rcases hs : trimSpaceScan s with ⟨fb, t⟩
  rw [hs] at hw1
  cases fb with
  | true => exact within_trans (TrimFunc_within t IsSpace) hw1
  | false =>
    simp only
    obtain ⟨⟨pre2, e2⟩, -⟩ := trimSpaceScan_spec t.reverse
    have hw2 : Within (trimSpaceScan t.reverse).2.reverse t := by
      have := within_reverse (⟨pre2, [], by simpa using e2⟩ :
        Within (trimSpaceScan t.reverse).2 t.reverse)
      simpa using this
    rcases hs2 : trimSpaceScan t.reverse with ⟨fb2, r⟩
    rw [hs2] at hw2
    cases fb2 with
    | true => exact within_trans (TrimFunc_within _ IsSpace) (within_trans hw2 hw1)
    | false => exact within_trans hw2 hw1

theorem TrimSpace_head (s : Bytes) (b : Nat) (h : (TrimSpace s).head? = some b) :
    asciiSpace b = false := by
  unfold TrimSpace at h
  obtain ⟨-, hh1⟩ := trimSpaceScan_spec s
  rcases hs : trimSpaceScan s with ⟨fb, t⟩
  rw [hs] at h hh1
  cases fb with
  | true => exact TrimFunc_head t b h
  | false =>
    simp only at h
    obtain ⟨⟨pre2, e2⟩, -⟩ := trimSpaceScan_spec t.reverse
    rcases hs2 : trimSpaceScan t.reverse with ⟨fb2, r⟩
    rw [hs2] at h e2
    cases fb2 with
    | true => exact TrimFunc_head _ b h
    | false =>
      simp only at h e2
      have et : t = r.reverse ++ pre2.reverse := by
        have := congrArg List.reverse e2
        simpa using this
      apply (hh1 rfl b ?_).2
      simp only
      rw [et]
      cases hr : r.reverse with
      | nil => rw [hr] at h; simp at h
      | cons x xs => rw [hr] at h; simpa using h

theorem TrimSpace_last (s : Bytes) (b : Nat) (h : (TrimSpace s).getLast? = some b) :
    asciiSpace b = false := by
  unfold TrimSpace at h
  rcases hs : trimSpaceScan s with ⟨fb, t⟩
  rw [hs] at h
  cases fb with
  | true => exact TrimFunc_last t b h
  | false =>
    simp only at h
    obtain ⟨-, hh2⟩ := trimSpaceScan_spec t.reverse
    rcases hs2 : trimSpaceScan t.reverse with ⟨fb2, r⟩
    rw [hs2] at h hh2
    cases fb2 with
    | true => exact TrimFunc_last _ b h
    | false =>
      simp only at h
      apply (hh2 rfl b ?_).2
      simpa [List.getLast?_reverse] using h

/-! ### Runes at the two ends -/

theorem IsSpace_RuneError : IsSpace RuneError = false := by decide

theorem decodeBytes_ascii (n p0 b1 b2 b3 : Nat) (h : p0 < 0x80) :
    decodeBytes n p0 b1 b2 b3 = (p0, 1) := by
  have hs := (runeSize_facts p0).2.1.mpr h
  simp [decodeBytes, hs]

theorem DecodeRune_ascii (b : Nat) (rest : Bytes) (h : b < RuneSelf) :
    DecodeRune (b :: rest) = (b, 1) := by
  rw [DecodeRune_of_ne_nil _ (List.cons_ne_nil b rest)]
  exact decodeBytes_ascii _ _ _ _ _ (by simpa [RuneSelf] using h)

/-- The length matters to `decodeBytes` only through the test `n < sz`. -/
theorem decodeBytes_length (m n p0 b1 b2 b3 : Nat)
    (h : m < runeSize p0 ↔ n < runeSize p0) :
    decodeBytes m p0 b1 b2 b3 = decodeBytes n p0 b1 b2 b3 := by
  by_cases hm : m < runeSize p0
  · have hn := h.mp hm
    simp only [decodeBytes, hm, hn]
  · have hn : ¬ n < runeSize p0 := fun e => hm (h.mpr e)
    simp only [decodeBytes, hm, hn]

theorem decodeBytes_short (m p0 b1 b2 b3 : Nat) (h1 : 1 ≤ m) (hm : m < runeSize p0) :
    decodeBytes m p0 b1 b2 b3 = (RuneError, 1) := by
  have e1 : ¬ runeSize p0 = 1 := by omega
  unfold decodeBytes
  rw [if_neg e1, if_pos hm, ite_self]

/-- The result of `decodeBytes` depends only on the bytes below the length. -/
theorem decodeBytes_congr (n p0 b1 b2 b3 c1 c2 c3 : Nat)
    (h1 : 1 < n → b1 = c1) (h2 : 2 < n → b2 = c2) (h3 : 3 < n → b3 = c3) :
    decodeBytes n p0 b1 b2 b3 = decodeBytes n p0 c1 c2 c3 := by
  have hs := (runeSize_facts p0).1
  unfold decodeBytes
  generalize runeSize p0 = sz at *
  generalize acceptRange p0 = acc at *
  interval_cases sz
  · simp
  · simp
  · by_cases hn : n < 2
    · simp [hn]
    · have := h1 (by omega)
      subst this
      simp
  · by_cases hn : n < 3
    · simp [hn]
    · have := h1 (by omega)
      subst this
      have := h2 (by omega)
      subst this
      simp
  · by_cases hn : n < 4
    · simp [hn]
    · have := h1 (by omega)
      subst this
      have := h2 (by omega)
      subst this
      have := h3 (by omega)
      subst this
      simp

/-- A shorter length either leaves the decoded rune alone or makes it `RuneError`. -/
theorem decodeBytes_shorter (n m p0 b1 b2 b3 : Nat) (h1 : 1 ≤ m) (hm : m ≤ n) :
    decodeBytes m p0 b1 b2 b3 = decodeBytes n p0 b1 b2 b3 ∨
      decodeBytes m p0 b1 b2 b3 = (RuneError, 1) := by
  by_cases h : m < runeSize p0
  · exact Or.inr (decodeBytes_short m p0 b1 b2 b3 h1 h)
  · exact Or.inl (decodeBytes_length m n p0 b1 b2 b3
      ⟨fun h' => absurd h' h, fun h' => absurd (by omega) h⟩)

/-- A valid multi-byte rune decodes the same at any length that covers it. -/
theorem decodeBytes_longer (n m p0 b1 b2 b3 : Nat) (h1 : 1 ≤ m) (hm : m ≤ n)
    (h2 : 2 ≤ (decodeBytes m p0 b1 b2 b3).2) :
    decodeBytes n p0 b1 b2 b3 = decodeBytes m p0 b1 b2 b3 := by
  by_cases h : m < runeSize p0
  · rw [decodeBytes_short m p0 b1 b2 b3 h1 h] at h2
    simp at h2
  · exact decodeBytes_length n m p0 b1 b2 b3
      ⟨fun h' => absurd (by omega) h, fun h' => absurd h' h⟩

theorem getD_take_lt (p : Bytes) (n k : Nat) (h : k < n) : (p.take n).getD k 0 = p.getD k 0 := by
  simp [List.getD_eq_getElem?_getD, List.getElem?_take, h]

theorem DecodeRune_take_eq (p : Bytes) (k : Nat) (hk : 1 ≤ k) (hp : p ≠ []) :
    DecodeRune (p.take k) =
      decodeBytes (min k p.length) (p.getD 0 0) (p.getD 1 0) (p.getD 2 0) (p.getD 3 0) := by
  have hlen : (p.take k).length = min k p.length := List.length_take _ _
  have hpos : 0 < p.length := List.length_pos.mpr hp
  have hne : p.take k ≠ [] := by
    intro e
    rw [e] at hlen
    simp at hlen
    omega
  rw [DecodeRune_of_ne_nil _ hne, hlen, getD_take_lt p k 0 (by omega)]
  apply decodeBytes_congr
  · intro h; exact getD_take_lt p k 1 (by omega)
  · intro h; exact getD_take_lt p k 2 (by omega)
  · intro h; exact getD_take_lt p k 3 (by omega)

/-- Cutting a slice short either keeps its first rune or turns it into `RuneError`. -/
theorem DecodeRune_take (p : Bytes) (k : Nat) :
    (DecodeRune (p.take k)).1 = (DecodeRune p).1 ∨ (DecodeRune (p.take k)).1 = RuneError := by
  by_cases hp : p = []
  · subst hp; simp
  by_cases hk : k = 0
  · subst hk; simp [DecodeRune_nil]
  · rw [DecodeRune_take_eq p k (by omega) hp, DecodeRune_of_ne_nil p hp]
    have hpos : 0 < p.length := List.length_pos.mpr hp
    rcases decodeBytes_shorter p.length (min k p.length) (p.getD 0 0) (p.getD 1 0) (p.getD 2 0)
      (p.getD 3 0) (by omega) (by omega) with h | h
    · exact Or.inl (by rw [h])
    · exact Or.inr (by rw [h])

/-- A valid multi-byte rune at the front of a cut slice is the first rune of the slice. -/
theorem DecodeRune_of_take (p : Bytes) (k : Nat) (h2 : 2 ≤ (DecodeRune (p.take k)).2) :
    DecodeRune p = DecodeRune (p.take k) := by
  have hp : p ≠ [] := by
    intro e
    subst e
    simp [DecodeRune_nil] at h2
  have hk : 1 ≤ k := by
    by_cases e : k = 0
    · subst e; simp [DecodeRune_nil] at h2
    · omega
  have hpos : 0 < p.length := List.length_pos.mpr hp
  rw [DecodeRune_take_eq p k hk hp] at h2 ⊢
  rw [DecodeRune_of_ne_nil p hp]
  exact decodeBytes_longer _ _ _ _ _ _ (by omega) (by omega) h2

/-- A non-ASCII byte that no continuation byte follows decodes to `RuneError`. -/
theorem DecodeRune_lone (c : Nat) (rest : Bytes) (hc : RuneSelf ≤ c)
    (hrest : rest = [] ∨ isContinuation (rest.getD 0 0) = false) :
    DecodeRune (c :: rest) = (RuneError, 1) := by
  rw [DecodeRune_of_ne_nil _ (List.cons_ne_nil c rest)]
  apply decodeBytes_invalid _ _ _ _ _ (by simpa [RuneSelf] using hc)
  by_contra hcon
  have h2 : 2 ≤ (decodeBytes (c :: rest).length ((c :: rest).getD 0 0) ((c :: rest).getD 1 0)
      ((c :: rest).getD 2 0) ((c :: rest).getD 3 0)).2 := by omega
  have hsz := decodeBytes_size (c :: rest).length ((c :: rest).getD 0 0) ((c :: rest).getD 1 0)
      ((c :: rest).getD 2 0) ((c :: rest).getD 3 0) (by simp)
  have hb := decodeBytes_cont _ _ _ _ _ h2
  cases rest with
  | nil =>
    simp only [List.length_cons, List.length_nil] at hsz h2
    omega
  | cons b rest =>
    have hb1 : 0x80 ≤ b ∧ b ≤ 0xBF := hb
    rcases hrest with e | e
    · exact absurd e (List.cons_ne_nil b rest)
    · have e1 : isContinuation b = false := e
      simp only [isContinuation, Bool.and_eq_false_iff, decide_eq_false_iff_not] at e1
      omega

theorem DecodeRune_lead (q : Bytes) (h2 : 2 ≤ (DecodeRune q).2) :
    isContinuation (q.getD 0 0) = false := by
  have hq : q ≠ [] := by
    intro e
    subst e
    simp [DecodeRune_nil] at h2
  rw [DecodeRune_of_ne_nil q hq] at h2
  have := (decodeBytes_lead _ _ _ _ _ h2).1
  simp only [isContinuation, Bool.and_eq_false_iff, decide_eq_false_iff_not]
  omega

theorem IsSpace_ascii (b : Nat) (h1 : b < RuneSelf) (h2 : asciiSpace b = false) :
    IsSpace b = false := by
  simp only [RuneSelf] at h1
  simp only [asciiSpace, decide_eq_false_iff_not] at h2
  have hb : b ≤ 0xFF := by omega
  simp only [IsSpace, hb, if_true, decide_eq_false_iff_not]
  omega

theorem DecodeLastRune_ascii (p : Bytes) (hp : p ≠ [])
    (hlast : p.getD (p.length - 1) 0 < RuneSelf) :
    DecodeLastRune p = (p.getD (p.length - 1) 0, 1) := by
  have h0 : ¬ p.length = 0 := by
    have := List.length_pos.mpr hp
    omega
  simp only [DecodeLastRune, h0, if_false, hlast, if_true]

/-- A last rune that is not ASCII is `RuneError` of width 1 or a valid multi-byte rune, the
one `DecodeRune` finds where it starts. -/
theorem DecodeLastRune_cases (p : Bytes) (hp : p ≠ [])
    (hlast : RuneSelf ≤ p.getD (p.length - 1) 0) :
    DecodeLastRune p = (RuneError, 1) ∨
    (2 ≤ (DecodeLastRune p).2 ∧ (DecodeLastRune p).2 ≤ p.length ∧
      DecodeLastRune p = DecodeRune (p.drop (p.length - (DecodeLastRune p).2))) := by
  have hlen : 0 < p.length := List.length_pos.mpr hp
  have h0 : ¬ p.length = 0 := by omega
  have h1 : ¬ p.getD (p.length - 1) 0 < RuneSelf := by omega
  simp only [DecodeLastRune, h0, if_false, h1]
  have hs := lastRuneStart_le p (p.length - UTFMax) (p.length - 1)
  generalize lastRuneStart p (p.length - UTFMax) (p.length - 1) = start at *
  by_cases hne : start + (DecodeRune (p.drop start)).2 ≠ p.length
  · rw [if_pos hne]
    exact Or.inl rfl
  · rw [if_neg hne]
    have he : start + (DecodeRune (p.drop start)).2 = p.length := by omega
    by_cases h2 : 2 ≤ (DecodeRune (p.drop start)).2
    · right
      refine ⟨h2, by omega, ?_⟩
      have e : p.length - (DecodeRune (p.drop start)).2 = start := by omega
      rw [e]
    · left
      have hdl : (p.drop start).length = p.length - start := by simp
      have hdne : p.drop start ≠ [] := by
        intro e
        rw [e] at hdl
        simp at hdl
        omega
      have hpos := DecodeRune_size_pos _ hdne
      have hst : start = p.length - 1 := by omega
      rw [DecodeRune_of_ne_nil _ hdne] at h2 ⊢
      apply decodeBytes_invalid
      · rw [getD_drop, hst]
        simpa [RuneSelf] using hlast
      · omega

theorem take_succ_ne_nil (s : Bytes) (i : Nat) (h : i < s.length) :
    (s.take (i + 1)).length = i + 1 ∧ s.take (i + 1) ≠ [] := by
  have hlen : (s.take (i + 1)).length = i + 1 := by
    rw [List.length_take]; omega
  refine ⟨hlen, ?_⟩
  intro e
  rw [e] at hlen
  simp at hlen

theorem drop_eq_cons_getD (s : Bytes) (i : Nat) (h : i < s.length) :
    s.drop i = s.getD i 0 :: s.drop (i + 1) := by
  rw [List.drop_eq_getElem_cons h]
  simp [List.getD_eq_getElem?_getD, List.getElem?_eq_getElem h]

/-- The loop of `lastIndexFunc(s, unicode.IsSpace, false)` stops at a rune after which
`TrimRightFunc` cuts exactly: the last rune of what is kept is no space. -/
theorem lastIndexFuncFrom_rune (s : Bytes) :
    ∀ (i skip k : Nat), i ≤ s.length → skip ≤ i →
      (i - skip = s.length ∨ isContinuation (s.getD (i - skip) 0) = false) →
      lastIndexFuncFrom s IsSpace false i skip = some k →
      IsSpace (DecodeLastRune
        (if s.getD k 0 ≥ RuneSelf then s.take (k + (DecodeRune (s.drop k)).2)
          else s.take (k + 1))).1 = false := by
  intro i
  induction i with
  | zero => intro skip k _ _ _ h; simp [lastIndexFuncFrom] at h
  | succ i ih =>
    intro skip k hi hskip hinv h
    cases skip with
    | succ skip =>
      simp only [lastIndexFuncFrom] at h
      have e : i + 1 - (skip + 1) = i - skip := by omega
      rw [e] at hinv
      exact ih skip k (by omega) (by omega) hinv h
    | zero =>
      simp only [lastIndexFuncFrom] at h
      simp only [Nat.sub_zero] at hinv
      obtain ⟨hlen, hne⟩ := take_succ_ne_nil s i (by omega)
      have hlastbyte : (s.take (i + 1)).getD ((s.take (i + 1)).length - 1) 0 = s.getD i 0 := by
        rw [hlen, getD_take s (i + 1) (i + 1 - 1) (by omega)]
        simp
      by_cases hc : s.getD i 0 ≥ RuneSelf
      · simp only [hc, if_true] at h
        rcases DecodeLastRune_cases (s.take (i + 1)) hne (by rw [hlastbyte]; exact hc)
          with hd | ⟨hd2, hdle, hd⟩
        · -- the last rune is `RuneError`: the loop stops here
          rw [hd] at h
          simp only [IsSpace_RuneError, if_true, Option.some.injEq] at h
          have hk : k = i := by omega
          subst hk
          have hw : DecodeRune (s.drop k) = (RuneError, 1) := by
            rw [drop_eq_cons_getD s k (by omega)]
            apply DecodeRune_lone _ _ hc
            rcases hinv with e | e
            · left
              apply List.drop_eq_nil_of_le
              omega
            · right
              rw [getD_drop]
              simpa using e
          simp only [hc, if_true, hw, hd, IsSpace_RuneError]
        · rw [hlen] at hdle
          have hdrop : (s.take (i + 1)).drop (i + 1 - (DecodeLastRune (s.take (i + 1))).2) =
              (s.drop (i + 1 - (DecodeLastRune (s.take (i + 1))).2)).take
                (DecodeLastRune (s.take (i + 1))).2 := by
            rw [List.drop_take]
            congr 1
            omega
          rw [hlen, hdrop] at hd
          by_cases hf : IsSpace (DecodeLastRune (s.take (i + 1))).1 = false
          · rw [if_pos hf] at h
            simp only [Option.some.injEq] at h
            subst h
            have hfull : DecodeRune (s.drop (i + 1 - (DecodeLastRune (s.take (i + 1))).2)) =
                DecodeLastRune (s.take (i + 1)) := by
              rw [DecodeRune_of_take _ (DecodeLastRune (s.take (i + 1))).2 (by rw [← hd]; exact hd2)]
              exact hd.symm
            have hge : s.getD (i + 1 - (DecodeLastRune (s.take (i + 1))).2) 0 ≥ RuneSelf := by
              have := DecodeRune_bytes _ 0 (by rw [hfull]; exact hd2) (by rw [hfull]; omega)
              rw [getD_drop] at this
              simpa using this
            simp only [hge, if_true, hfull]
            have e : i + 1 - (DecodeLastRune (s.take (i + 1))).2
                + (DecodeLastRune (s.take (i + 1))).2 = i + 1 := by omega
            rw [e]
            exact hf
          · rw [if_neg hf] at h
            apply ih _ k (by omega) (by omega) _ h
            right
            have hfull : DecodeRune (s.drop (i + 1 - (DecodeLastRune (s.take (i + 1))).2)) =
                DecodeLastRune (s.take (i + 1)) := by
              rw [DecodeRune_of_take _ (DecodeLastRune (s.take (i + 1))).2 (by rw [← hd]; exact hd2)]
              exact hd.symm
            have := DecodeRune_lead _ (by rw [hfull]; exact hd2)
            rw [getD_drop] at this
            have e : i - ((DecodeLastRune (s.take (i + 1))).2 - 1)
                = i + 1 - (DecodeLastRune (s.take (i + 1))).2 + 0 := by omega
            rw [e]
            exact this
      · have hlt : s.getD i 0 < RuneSelf := by omega
        simp only [hc, if_false] at h
        by_cases hf : IsSpace (s.getD i 0) = false
        · rw [if_pos hf] at h
          simp only [Option.some.injEq] at h
          have hk : k = i := by omega
          subst hk
          simp only [hc, if_false]
          rw [DecodeLastRune_ascii _ hne (by rw [hlastbyte]; exact hlt), hlastbyte]
          exact hf
        · rw [if_neg hf] at h
          apply ih 0 k (by omega) (by omega) _ h
          right
          simp only [Nat.sub_zero, isContinuation, Bool.and_eq_false_iff, decide_eq_false_iff_not]
          simp only [RuneSelf] at hlt
          omega

theorem TrimRightFunc_last_rune (s : Bytes) :
    IsSpace (DecodeLastRune (TrimRightFunc s IsSpace)).1 = false := by
  unfold TrimRightFunc
  cases hi : lastIndexFunc s IsSpace false with
  | none => simp [DecodeLastRune, IsSpace_RuneError]
  | some k =>
    simp only
    exact lastIndexFuncFrom_rune s s.length 0 k (Nat.le_refl _) (Nat.zero_le _)
      (Or.inl (Nat.sub_zero _)) hi

theorem indexFuncFrom_rune (f : Nat → Bool) (truth : Bool) :
    ∀ (s : Bytes) (skip start i : Nat), indexFuncFrom f truth s skip start = some i →
      ∃ j, i = start + j ∧ f (DecodeRune (s.drop j)).1 = truth := by
  intro s
  induction s with
  | nil => intro skip start i h; simp [indexFuncFrom] at h
  | cons b s ih =>
    intro skip start i h
    cases skip with
    | succ skip =>
      simp only [indexFuncFrom] at h
      obtain ⟨j, e, hb⟩ := ih skip (start + 1) i h
      exact ⟨j + 1, by omega, by simpa using hb⟩
    | zero =>
      simp only [indexFuncFrom] at h
      by_cases hf : f (if b ≥ RuneSelf then DecodeRune (b :: s) else (b, 1)).1 = truth
      · rw [if_pos hf] at h
        refine ⟨0, by simpa using h.symm, ?_⟩
        by_cases hb : b ≥ RuneSelf
        · simpa [hb] using hf
        · rw [List.drop_zero, DecodeRune_ascii b s (by omega)]
          simpa [hb] using hf
      · rw [if_neg hf] at h
        obtain ⟨j, e, hb⟩ := ih _ (start + 1) i h
        exact ⟨j + 1, by omega, by simpa using hb⟩

theorem TrimLeftFunc_first_rune (s : Bytes) :
    IsSpace (DecodeRune (TrimLeftFunc s IsSpace)).1 = false := by
  unfold TrimLeftFunc
  cases hi : indexFunc s IsSpace false with
  | none => simp [DecodeRune_nil, IsSpace_RuneError]
  | some i =>
    obtain ⟨j, e, hj⟩ := indexFuncFrom_rune IsSpace false s 0 0 i hi
    have e1 : i = j := by omega
    subst e1
    exact hj

theorem TrimFunc_first_rune (s : Bytes) :
    IsSpace (DecodeRune (TrimFunc s IsSpace)).1 = false := by
  obtain ⟨k, e⟩ := TrimRightFunc_eq_take (TrimLeftFunc s IsSpace) IsSpace
  unfold TrimFunc
  rw [e]
  rcases DecodeRune_take (TrimLeftFunc s IsSpace) k with h | h
  · rw [h]; exact TrimLeftFunc_first_rune s
  · rw [h]; exact IsSpace_RuneError

theorem TrimFunc_last_rune (s : Bytes) :
    IsSpace (DecodeLastRune (TrimFunc s IsSpace)).1 = false :=
  TrimRightFunc_last_rune _

theorem TrimSpace_first_rune (s : Bytes) : IsSpace (DecodeRune (TrimSpace s)).1 = false := by
  unfold TrimSpace
  obtain ⟨-, hh1⟩ := trimSpaceScan_spec s
  rcases hs : trimSpaceScan s with ⟨fb, t⟩
  rw [hs] at hh1
  cases fb with
  | true => exact TrimFunc_first_rune t
  | false =>
    simp only
    obtain ⟨⟨pre2, e2⟩, -⟩ := trimSpaceScan_spec t.reverse
    rcases hs2 : trimSpaceScan t.reverse with ⟨fb2, r⟩
    rw [hs2] at e2
    cases fb2 with
    | true => exact TrimFunc_first_rune _
    | false =>
      simp only at e2 ⊢
      have et : t = r.reverse ++ pre2.reverse := by
        have := congrArg List.reverse e2
        simpa using this
      cases hr : r.reverse with
      | nil => simp [DecodeRune_nil, IsSpace_RuneError]
      | cons x xs =>
        have hx := hh1 rfl x (by simp only; rw [et, hr]; rfl)
        rw [DecodeRune_ascii x xs hx.1]
        exact IsSpace_ascii x hx.1 hx.2

theorem TrimSpace_last_rune (s : Bytes) : IsSpace (DecodeLastRune (TrimSpace s)).1 = false := by
  unfold TrimSpace
  rcases hs : trimSpaceScan s with ⟨fb, t⟩
  cases fb with
  | true => exact TrimFunc_last_rune t
  | false =>
    simp only
    obtain ⟨-, hh2⟩ := trimSpaceScan_spec t.reverse
    rcases hs2 : trimSpaceScan t.reverse with ⟨fb2, r⟩
    rw [hs2] at hh2
    cases fb2 with
    | true => exact TrimFunc_last_rune _
    | false =>
      simp only at hh2 ⊢
      cases r with
      | nil => simp [DecodeLastRune, IsSpace_RuneError]
      | cons x xs =>
        have hx := hh2 trivial x rfl
        have hne : (x :: xs).reverse ≠ [] := by simp
        have hl : (x :: xs).reverse.getD ((x :: xs).reverse.length - 1) 0 = x := by
          simp [List.getD_eq_getElem?_getD]
        rw [DecodeLastRune_ascii _ hne (by rw [hl]; exact hx.1), hl]
        exact IsSpace_ascii x hx.1 hx.2

theorem trimSpaceScan_ascii :
    ∀ s : Bytes, (∀ b ∈ s, b < RuneSelf) →
      trimSpaceScan s = (false, s.dropWhile asciiSpace) := by
  intro s
  induction s with
  | nil => intro _; rfl
  | cons c s ih =>
    intro h
    have hc : ¬ c ≥ RuneSelf := by
      have := h c (List.mem_cons_self _ _)
      omega
    have hs : ∀ b ∈ s, b < RuneSelf := fun b hb => h b (List.mem_cons_of_mem _ hb)
    cases ha : asciiSpace c with
    | true => simp [trimSpaceScan, hc, ha, ih hs, List.dropWhile_cons]
    | false => simp [trimSpaceScan, hc, ha, List.dropWhile_cons]

/-- On a slice of ASCII bytes `TrimSpace` removes exactly the whitespace bytes at the two
ends. -/
theorem TrimSpace_ascii (s : Bytes) (h : ∀ b ∈ s, b < RuneSelf) :
    TrimSpace s = ((s.dropWhile asciiSpace).reverse.dropWhile asciiSpace).reverse := by
  have h2 : ∀ b ∈ (s.dropWhile asciiSpace).reverse, b < RuneSelf := by
    intro b hb
    exact h b ((List.dropWhile_sublist asciiSpace).subset (List.mem_reverse.mp hb))
  unfold TrimSpace
  rw [trimSpaceScan_ascii s h]
  simp only
  rw [trimSpaceScan_ascii _ h2]

/-! ## The claim about the reader -/

/-- **C10** Inbound normalization.  For every message `readPump` reads, what it sends on
`ReceiveMessages` is one `ReceiveMessage` for its connection whose bytes are the input with
every `'\n'` replaced by a space and then trimmed by `bytes.TrimSpace`: a contiguous part of
the replaced input that holds no `'\n'` byte, whose first and last bytes, if any, are no
ASCII whitespace (tab, line feed, vertical tab, form feed, carriage return, space), and
whose first and last runes are no Unicode whitespace (`unicode.IsSpace`).  When the message
is ASCII, what is cut off at the two ends is whitespace bytes and nothing else. -/
theorem C10_inbound_normalization (c : ConnPtr) (rm : List ReceiveMessage) (message : Bytes) :
    ∃ out : Bytes,
      Connection.readPump c rm message = rm ++ [{ Message := out, Connection := c }] ∧
      out = TrimSpace (message.map (fun b => if b = 10 then 32 else b)) ∧
      Within out (message.map (fun b => if b = 10 then 32 else b)) ∧
      10 ∉ out ∧
      (∀ b, out.head? = some b → asciiSpace b = false) ∧
      (∀ b, out.getLast? = some b → asciiSpace b = false) ∧
      IsSpace (DecodeRune out).1 = false ∧
      IsSpace (DecodeLastRune out).1 = false ∧
      ((∀ b ∈ message, b < RuneSelf) →
        out = (((message.map (fun b => if b = 10 then 32 else b)).dropWhile
          asciiSpace).reverse.dropWhile asciiSpace).reverse) := by
  refine ⟨TrimSpace (message.map (fun b => if b = 10 then 32 else b)), ?_, rfl,
    TrimSpace_within _, ?_, TrimSpace_head _, TrimSpace_last _, TrimSpace_first_rune _,
    TrimSpace_last_rune _, ?_⟩
  · simp [Connection.readPump, Replace_newline]
  · apply within_not_mem (TrimSpace_within _) 10
    intro h
    obtain ⟨b, -, hb⟩ := List.mem_map.mp h
    by_cases e : b = 10
    · simp [e] at hb
    · simp [e] at hb
  · intro hascii
    apply TrimSpace_ascii
    intro b hb
    obtain ⟨x, hx, e⟩ := List.mem_map.mp hb
    by_cases e10 : x = 10
    · simp only [e10, if_true] at e
      subst e
      decide
    · simp only [e10, if_false] at e
      subst e
      exact hascii x hx

/-! ## The claim about the timing constants -/

/-- **C16** Keepalive timing.  `pingPeriod` is exactly nine tenths of `pongWait`: the product
`pongWait * 9` fits an `int64` and is a multiple of 10, so the integer division loses
nothing; it is 54 s for the 60 s timeout and strictly less than `pongWait`. -/
theorem C16_ping_period :
    pingPeriod * 10 = pongWait * 9 ∧
    (pongWait * 9) % 10 = 0 ∧
    pongWait * 9 < 2 ^ 63 ∧
    pongWait = 60 * Second ∧
    pingPeriod = 54 * Second ∧
    pingPeriod < pongWait := by
  have h : pingPeriod = 54000000000 := by decide
  have hw : pongWait = 60000000000 := by decide
  refine ⟨?_, ?_, ?_, rfl, ?_, ?_⟩
  · rw [h, hw]; decide
  · rw [hw]; decide
  · rw [hw]; decide
  · rw [h]; decide
  · rw [h, hw]; decide

/-! ## The claims about the origin check -/

/-- **C11** (the code at the failing inputs).  With `allowAllOrigins = false`, whatever
`net.ParseIP` and the Unicode lowering do, `CheckOrigin` accepts the origins
`http://localhost.evil.example` and `https://127.0.0.1.evil.example`, neither of which is an
approved origin: the host of the first, as the function's own host extraction computes it,
is `localhost.evil.example`, which only begins with `localhost`. -/
theorem C11_prefix_origin_accepted (mapLower : Bytes → Bytes)
    (ParseIP : Bytes → Option Bytes) :
    CheckOrigin mapLower ParseIP false
      { Origin := some (ascii "http://localhost.evil.example") } = true ∧
    CheckOrigin mapLower ParseIP false
      { Origin := some (ascii "https://127.0.0.1.evil.example") } = true ∧
    ascii "http://localhost.evil.example" ∉ allowedOrigins ∧
    ascii "https://127.0.0.1.evil.example" ∉ allowedOrigins ∧
    (Split ((SplitN2 (TrimPrefix (TrimPrefix (ascii "http://localhost.evil.example")
      (ascii "http://")) (ascii "https://")) 47).headD []) 58).headD []
        = ascii "localhost.evil.example" ∧
    ascii "localhost.evil.example" ≠ ascii "localhost" := by
  refine ⟨rfl, rfl, ?_, ?_, ?_, ?_⟩ <;> decide

/-- **C12** Allow-all origin policy.  Built with `allowAllOrigins = true`, `CheckOrigin`
returns `true` for every request, with or without an `Origin` header; built with
`allowAllOrigins = false`, it rejects a request whose `Origin` header is missing or
empty. -/
theorem C12_allow_all_origins (mapLower : Bytes → Bytes) (ParseIP : Bytes → Option Bytes)
    (r : Request) :
    CheckOrigin mapLower ParseIP true r = true ∧
    (r.Origin = none ∨ r.Origin = some [] → CheckOrigin mapLower ParseIP false r = false) := by
  constructor
  · simp [CheckOrigin]
  · rintro (h | h)
    · simp [CheckOrigin, Request.HeaderGetOrigin, h]
    · simp [CheckOrigin, Request.HeaderGetOrigin, h]

/-! ## The claim about the command dispatcher -/

theorem ascii_keys :
    ascii "type" = [116, 121, 112, 101] ∧
    ascii "teleport" = [116, 101, 108, 101, 112, 111, 114, 116] ∧
    ascii "lat" = [108, 97, 116] ∧ ascii "lng" = [108, 110, 103] ∧
    ascii "altitude" = [97, 108, 116, 105, 116, 117, 100, 101] := by
  decide

theorem pktGet_string {F : Type} (pkt : List (Bytes × JsonValue F)) (key s : Bytes) :
    pktGet pkt key = JsonValue.string s ↔ pkt.lookup key = some (JsonValue.string s) := by
  unfold pktGet
  cases pkt.lookup key with
  | none => simp
  | some v => simp

theorem pktGet_number {F : Type} (pkt : List (Bytes × JsonValue F)) (key : Bytes) (x : F) :
    pktGet pkt key = JsonValue.number x ↔ pkt.lookup key = some (JsonValue.number x) := by
  unfold pktGet
  cases pkt.lookup key with
  | none => simp
  | some v => simp

/-- What `handleClientMessage` sends, in terms of the decoded map itself. -/
theorem handleClientMessage_some {F : Type}
    (Unmarshal : Bytes → Option (List (Bytes × JsonValue F))) (disableTeleport : Bool)
    (m : ReceiveMessage) (sent : List F) :
    handleClientMessage Unmarshal disableTeleport m = some sent ↔
      ∃ (pkt : List (Bytes × JsonValue F)) (lat lng altitude : F),
        Unmarshal m.Message = some pkt ∧
        pkt.lookup [116, 121, 112, 101]
          = some (JsonValue.string [116, 101, 108, 101, 112, 111, 114, 116]) ∧
        disableTeleport = false ∧
        pkt.lookup [108, 97, 116] = some (JsonValue.number lat) ∧
        pkt.lookup [108, 110, 103] = some (JsonValue.number lng) ∧
        pkt.lookup [97, 108, 116, 105, 116, 117, 100, 101] = some (JsonValue.number altitude) ∧
        sent = [lat, lng, altitude] := by
  obtain ⟨k1, k2, k3, k4, k5⟩ := ascii_keys
  constructor
  · intro h
    unfold handleClientMessage at h
    rw [k1, k2, k3, k4, k5] at h
    cases hu : Unmarshal m.Message with
    | none => simp [hu] at h
    | some pkt =>
      simp only [hu] at h
      cases ht : pktGet pkt [116, 121, 112, 101] with
      | string pktType =>
        simp only [ht] at h
        by_cases hty : pktType = [116, 101, 108, 101, 112, 111, 114, 116]
        · simp only [hty, if_true] at h
          cases disableTeleport with
          | true => simp at h
          | false =>
            simp only [Bool.false_eq_true, if_false] at h
            cases hlat : pktGet pkt [108, 97, 116] with
            | number lat =>
              simp only [hlat] at h
              cases hlng : pktGet pkt [108, 110, 103] with
              | number lng =>
                simp only [hlng] at h
                cases halt : pktGet pkt [97, 108, 116, 105, 116, 117, 100, 101] with
                | number altitude =>
                  simp only [halt, Option.some.injEq] at h
                  rw [hty] at ht
                  exact ⟨pkt, lat, lng, altitude, rfl, (pktGet_string _ _ _).mp ht, rfl,
                    (pktGet_number _ _ _).mp hlat, (pktGet_number _ _ _).mp hlng,
                    (pktGet_number _ _ _).mp halt, h.symm⟩
                | _ => simp [halt] at h
              | _ => simp [hlng] at h
            | _ => simp [hlat] at h
        · simp [hty] at h
      | _ => simp [ht] at h
  · rintro ⟨pkt, lat, lng, altitude, hu, ht, hd, hlat, hlng, halt, hs⟩
    subst hd
    subst hs
    have ht1 := (pktGet_string _ _ _).mpr ht
    have hlat1 := (pktGet_number _ _ _).mpr hlat
    have hlng1 := (pktGet_number _ _ _).mpr hlng
    have halt1 := (pktGet_number _ _ _).mpr halt
    unfold handleClientMessage
    rw [k1, k2, k3, k4, k5]
    simp [hu, ht1, hlat1, hlng1, halt1, TeleportRequest.SetData]

/-- **C15** Inbound command dispatch.  `handleClientMessage` sets data on the simulator if
and only if `json.Unmarshal` decodes the message to an object whose entry `"type"` is the
string `"teleport"`, teleport is not disabled, and the entries `"lat"`, `"lng"` and
`"altitude"` are all numbers; what it sets is exactly these three values, as latitude,
longitude and altitude.  In every other case nothing is sent: when the message does not
decode, when teleport is disabled, when `"type"` is missing or no string, when it is
another string, and when one of the three fields is missing or no number.  The keys are
written as their bytes. -/
theorem C15_command_dispatch {F : Type}
    (Unmarshal : Bytes → Option (List (Bytes × JsonValue F))) (disableTeleport : Bool)
    (m : ReceiveMessage) :
    (∀ sent : List F,
      handleClientMessage Unmarshal disableTeleport m = some sent ↔
        ∃ (pkt : List (Bytes × JsonValue F)) (lat lng altitude : F),
          Unmarshal m.Message = some pkt ∧
          pkt.lookup [116, 121, 112, 101]
            = some (JsonValue.string [116, 101, 108, 101, 112, 111, 114, 116]) ∧
          disableTeleport = false ∧
          pkt.lookup [108, 97, 116] = some (JsonValue.number lat) ∧
          pkt.lookup [108, 110, 103] = some (JsonValue.number lng) ∧
          pkt.lookup [97, 108, 116, 105, 116, 117, 100, 101]
            = some (JsonValue.number altitude) ∧
          sent = [lat, lng, altitude]) ∧
    (Unmarshal m.Message = none → handleClientMessage Unmarshal disableTeleport m = none) ∧
    (disableTeleport = true → handleClientMessage Unmarshal disableTeleport m = none) ∧
    (∀ pkt, Unmarshal m.Message = some pkt →
      (∀ s, pkt.lookup [116, 121, 112, 101] ≠ some (JsonValue.string s)) →
      handleClientMessage Unmarshal disableTeleport m = none) ∧
    (∀ pkt s, Unmarshal m.Message = some pkt →
      pkt.lookup [116, 121, 112, 101] = some (JsonValue.string s) →
      s ≠ [116, 101, 108, 101, 112, 111, 114, 116] →
      handleClientMessage Unmarshal disableTeleport m = none) ∧
    (∀ pkt, Unmarshal m.Message = some pkt →
      ((∀ x, pkt.lookup [108, 97, 116] ≠ some (JsonValue.number x)) ∨
       (∀ x, pkt.lookup [108, 110, 103] ≠ some (JsonValue.number x)) ∨
       (∀ x, pkt.lookup [97, 108, 116, 105, 116, 117, 100, 101]
          ≠ some (JsonValue.number x))) →
      handleClientMessage Unmarshal disableTeleport m = none) := by
  have hnone : (∀ sent : List F, handleClientMessage Unmarshal disableTeleport m ≠ some sent) →
      handleClientMessage Unmarshal disableTeleport m = none := by
    intro h
    cases hr : handleClientMessage Unmarshal disableTeleport m with
    | none => rfl
    | some sent => exact absurd hr (h sent)
  refine ⟨handleClientMessage_some Unmarshal disableTeleport m, ?_, ?_, ?_, ?_, ?_⟩
  · intro hu
    apply hnone
    intro sent hs
    obtain ⟨pkt, _, _, _, hp, -⟩ := (handleClientMessage_some _ _ _ _).mp hs
    rw [hu] at hp
    exact absurd hp (by simp)
  · intro hd
    apply hnone
    intro sent hs
    obtain ⟨_, _, _, _, -, -, hf, -⟩ := (handleClientMessage_some _ _ _ _).mp hs
    rw [hd] at hf
    exact absurd hf (by decide)
  · intro pkt hu hty
    apply hnone
    intro sent hs
    obtain ⟨pkt1, _, _, _, hp, ht, -⟩ := (handleClientMessage_some _ _ _ _).mp hs
    rw [hu] at hp
    cases hp
    exact hty _ ht
  · intro pkt s hu hty hne
    apply hnone
    intro sent hs
    obtain ⟨pkt1, _, _, _, hp, ht, -⟩ := (handleClientMessage_some _ _ _ _).mp hs
    rw [hu] at hp
    cases hp
    rw [hty] at ht
    cases ht
    exact hne rfl
  · intro pkt hu hbad
    apply hnone
    intro sent hs
    obtain ⟨pkt1, lat, lng, altitude, hp, -, -, hlat, hlng, halt, -⟩ :=
      (handleClientMessage_some _ _ _ _).mp hs
    rw [hu] at hp
    cases hp
    rcases hbad with h | h | h
    · exact h _ hlat
    · exact h _ hlng
    · exact h _ halt

/-- The dispatcher run on the example teleport message. -/
theorem handleClientMessage_teleportMessage :
    handleClientMessage exampleUnmarshal false { Message := teleportMessage, Connection := 7 }
      = some [47, 8, 1000] := by
  decide

theorem C15_command_dispatch_witness :
    handleClientMessage exampleUnmarshal false { Message := teleportMessage, Connection := 7 }
      = some [47, 8, 1000] ∧
    handleClientMessage exampleUnmarshal true { Message := teleportMessage, Connection := 7 }
      = none ∧
    handleClientMessage exampleUnmarshal false { Message := pingMessage, Connection := 7 }
      = none ∧
    handleClientMessage exampleUnmarshal false { Message := stringLatMessage, Connection := 7 }
      = none ∧
    handleClientMessage exampleUnmarshal false { Message := untypedMessage, Connection := 7 }
      = none ∧
    handleClientMessage exampleUnmarshal false
      { Message := [116, 101, 108, 101, 112, 111, 114, 116, 32, 52, 55, 32, 56, 32, 49, 48, 48,
          48], Connection := 7 } = none :=
  ⟨((C15_command_dispatch exampleUnmarshal false
      { Message := teleportMessage, Connection := 7 }).1 [47, 8, 1000]).mpr
      ⟨teleportPacket, 47, 8, 1000, rfl, rfl, rfl, rfl, rfl, rfl, rfl⟩,
    (C15_command_dispatch exampleUnmarshal true
      { Message := teleportMessage, Connection := 7 }).2.2.1 rfl,
    by decide, by decide, by decide, by decide⟩

/-! ## The claim about the failing read -/

theorem readPumpRun_cons (c : ConnPtr) (st : ReaderState) (ev : ReaderEvent)
    (evs : List ReaderEvent) :
    Connection.readPumpRun c st (ev :: evs) =
      Connection.readPumpRun c (Connection.readPumpStep c st ev) evs := rfl

theorem readPumpRun_append (c : ConnPtr) (st : ReaderState) (evs1 evs2 : List ReaderEvent) :
    Connection.readPumpRun c st (evs1 ++ evs2) =
      Connection.readPumpRun c (Connection.readPumpRun c st evs1) evs2 := by
  simp [Connection.readPumpRun, List.foldl_append]

theorem readPumpRun_frames (c : ConnPtr) :
    ∀ (ms : List Bytes) (rm : List ReceiveMessage),
      (∀ m ∈ ms, m.length ≤ maxMessageSize) →
      Connection.readPumpRun c
          { ReceiveMessages := rm, pc := .reading, unregister := [], closes := 0 }
          (ms.map (fun m => ReaderEvent.read (StreamEvent.frame m))) =
        { ReceiveMessages := rm ++ published c ms, pc := .reading, unregister := [],
          closes := 0 } := by
  intro ms
  induction ms with
  | nil => intro rm _; simp [Connection.readPumpRun, published]
  | cons m ms ih =>
    intro rm h
    have hm : ¬ m.length > maxMessageSize := by
      have := h m (List.mem_cons_self _ _)
      omega
    have hms : ∀ x ∈ ms, x.length ≤ maxMessageSize :=
      fun x hx => h x (List.mem_cons_of_mem _ hx)
    rw [List.map_cons, readPumpRun_cons]
    have hstep : Connection.readPumpStep c
        { ReceiveMessages := rm, pc := .reading, unregister := [], closes := 0 }
        (ReaderEvent.read (StreamEvent.frame m)) =
        { ReceiveMessages := Connection.readPump c rm m, pc := .reading, unregister := [],
          closes := 0 } := by
      simp [Connection.readPumpStep, ReadMessage, hm]
    rw [hstep, ih _ hms]
    simp [Connection.readPump, published]

theorem readPumpRun_blocked (c : ConnPtr) (st : ReaderState) (h : st.pc ≠ .reading) :
    ∀ reads : List StreamEvent,
      Connection.readPumpRun c st (reads.map ReaderEvent.read) = st := by
  intro reads
  induction reads with
  | nil => rfl
  | cons ev reads ih =>
    rw [List.map_cons, readPumpRun_cons]
    have : Connection.readPumpStep c st (ReaderEvent.read ev) = st := by
      cases hp : st.pc with
      | reading => exact absurd hp h
      | unregistering => simp [Connection.readPumpStep, hp]
      | returned => simp [Connection.readPumpStep, hp]
    rw [this, ih]

theorem readPumpRun_returned (c : ConnPtr) (st : ReaderState) (h : st.pc = .returned) :
    ∀ evs : List ReaderEvent, Connection.readPumpRun c st evs = st := by
  intro evs
  induction evs with
  | nil => rfl
  | cons ev evs ih =>
    rw [readPumpRun_cons]
    have : Connection.readPumpStep c st ev = st := by
      cases ev <;> simp [Connection.readPumpStep, h]
    rw [this, ih]

/-- **C13** Reader failure handling.  Let `readPump` read the messages `ms`, none longer
than `maxMessageSize`, and let the next read fail; a message longer than 2048 bytes is such
a failing read.  Then exactly the normalised `ms` have been published, in stream order, and
nothing for the failing read; `readPump` has left its loop and stands at the send on
`unregister`, whatever the stream brings afterwards; and once `Run` has taken that value
`readPump` has sent exactly one unregister, for its own connection, has closed the stream
once and has returned, and nothing it does later changes that. -/
theorem C13_reader_failure (c : ConnPtr) (ms : List Bytes) (bad : StreamEvent)
    (reads : List StreamEvent) (later : List ReaderEvent)
    (hms : ∀ m ∈ ms, m.length ≤ maxMessageSize)
    (hbad : ReadMessage maxMessageSize bad = none) :
    (∀ p : Bytes, p.length > 2048 → ReadMessage maxMessageSize (StreamEvent.frame p) = none) ∧
    Connection.readPumpRun c readerStart
        (ms.map (fun m => ReaderEvent.read (StreamEvent.frame m)) ++ [ReaderEvent.read bad]
          ++ reads.map ReaderEvent.read) =
      { ReceiveMessages := published c ms, pc := .unregistering, unregister := [],
        closes := 0 } ∧
    Connection.readPumpRun c readerStart
        (ms.map (fun m => ReaderEvent.read (StreamEvent.frame m)) ++ [ReaderEvent.read bad]
          ++ reads.map ReaderEvent.read ++ [ReaderEvent.hubTakes] ++ later) =
      { ReceiveMessages := published c ms, pc := .returned, unregister := [c],
        closes := 1 } := by
  have h1 : Connection.readPumpRun c readerStart
      (ms.map (fun m => ReaderEvent.read (StreamEvent.frame m)) ++ [ReaderEvent.read bad]
        ++ reads.map ReaderEvent.read) =
      { ReceiveMessages := published c ms, pc := .unregistering, unregister := [],
        closes := 0 } := by
    rw [readPumpRun_append, readPumpRun_append]
    have h0 : Connection.readPumpRun c readerStart
        (ms.map (fun m => ReaderEvent.read (StreamEvent.frame m))) =
        { ReceiveMessages := published c ms, pc := .reading, unregister := [], closes := 0 } :=
      readPumpRun_frames c ms [] hms
    rw [h0]
    have hstep : Connection.readPumpRun c
        { ReceiveMessages := published c ms, pc := .reading, unregister := [], closes := 0 }
        [ReaderEvent.read bad] =
        { ReceiveMessages := published c ms, pc := .unregistering, unregister := [],
          closes := 0 } := by
      simp [Connection.readPumpRun, Connection.readPumpStep, hbad]
    rw [hstep]
    exact readPumpRun_blocked c _ (by simp) reads
  refine ⟨?_, h1, ?_⟩
  · intro p hp
    simp [ReadMessage, maxMessageSize, hp]
  · rw [readPumpRun_append, readPumpRun_append, h1]
    have hstep : Connection.readPumpRun c
        { ReceiveMessages := published c ms, pc := .unregistering, unregister := [],
          closes := 0 } [ReaderEvent.hubTakes] =
        { ReceiveMessages := published c ms, pc := .returned, unregister := [c],
          closes := 1 } := by
      simp [Connection.readPumpRun, Connection.readPumpStep]
    rw [hstep]
    exact readPumpRun_returned c _ rfl later

theorem C13_reader_failure_witness :
    (∀ m ∈ [[32, 104, 105, 10], [111, 107]], m.length ≤ maxMessageSize) ∧
    ReadMessage maxMessageSize (StreamEvent.frame (List.replicate 2049 120)) = none ∧
    Connection.readPumpRun 3 readerStart
        ([[32, 104, 105, 10], [111, 107]].map (fun m => ReaderEvent.read (StreamEvent.frame m))
          ++ [ReaderEvent.read (StreamEvent.frame (List.replicate 2049 120))]
          ++ [StreamEvent.frame [104]].map ReaderEvent.read ++ [ReaderEvent.hubTakes]
          ++ [ReaderEvent.hubTakes, ReaderEvent.read StreamEvent.failure]) =
      { ReceiveMessages := published 3 [[32, 104, 105, 10], [111, 107]], pc := .returned,
        unregister := [3], closes := 1 } :=
  ⟨by decide, by simp only [ReadMessage, List.length_replicate, maxMessageSize]; rfl,
    (C13_reader_failure 3 [[32, 104, 105, 10], [111, 107]]
      (StreamEvent.frame (List.replicate 2049 120)) [StreamEvent.frame [104]]
      [ReaderEvent.hubTakes, ReaderEvent.read StreamEvent.failure]
      (by decide)
      (by simp only [ReadMessage, List.length_replicate, maxMessageSize]; rfl)).2.2⟩

/-! ## The claim about the three goroutines -/

theorem tasksRun_cons (s : ConnTasks) (ev : TaskEvent) (evs : List TaskEvent) :
    tasksRun s (ev :: evs) = tasksRun (tasksStep s ev) evs := rfl

/-- Once `writePump` has returned, a writer that stands at the send on `SendQueue` stays
there: no step of any goroutine takes the value or moves the writer. -/
theorem tasksStep_stuck (s : ConnTasks) (ev : TaskEvent) (message : Bytes)
    (hpump : s.writePumpReturned = true) (hwriter : s.writer = WriterPc.sending message) :
    (tasksStep s ev).writePumpReturned = true ∧
    (tasksStep s ev).writer = WriterPc.sending message := by
  cases ev with
  | hubBroadcast packet =>
    simp only [tasksStep]
    cases s.registered with
    | false => exact ⟨hpump, hwriter⟩
    | true =>
      cases hs : s.Send.send packet with
      | ok ch => exact ⟨hpump, hwriter⟩
      | error p => exact ⟨hpump, hwriter⟩
  | writerRecv =>
    have e : tasksStep s TaskEvent.writerRecv = s := by simp only [tasksStep, hwriter]
    rw [e]; exact ⟨hpump, hwriter⟩
  | writerTick =>
    have e : tasksStep s TaskEvent.writerTick = s := by simp only [tasksStep, hwriter]
    rw [e]; exact ⟨hpump, hwriter⟩
  | writePumpRecv writeOk =>
    have e : tasksStep s (TaskEvent.writePumpRecv writeOk) = s := by
      simp only [tasksStep, hpump, if_true]
    rw [e]; exact ⟨hpump, hwriter⟩
  | writePumpPing writeOk =>
    have e : tasksStep s (TaskEvent.writePumpPing writeOk) = s := by
      simp only [tasksStep, hpump, if_true]
    rw [e]; exact ⟨hpump, hwriter⟩
  | readFail =>
    simp only [tasksStep]
    cases s.reader <;> exact ⟨hpump, hwriter⟩
  | hubUnregister =>
    simp only [tasksStep]
    cases s.reader with
    | reading => exact ⟨hpump, hwriter⟩
    | returned => exact ⟨hpump, hwriter⟩
    | unregistering =>
      cases s.registered with
      | false => exact ⟨hpump, hwriter⟩
      | true =>
        cases hs : s.Send.close with
        | ok ch => exact ⟨hpump, hwriter⟩
        | error p => exact ⟨hpump, hwriter⟩

theorem tasksRun_stuck (message : Bytes) :
    ∀ (evs : List TaskEvent) (s : ConnTasks),
      s.writePumpReturned = true → s.writer = WriterPc.sending message →
      (tasksRun s evs).writePumpReturned = true ∧
      (tasksRun s evs).writer = WriterPc.sending message := by
  intro evs
  induction evs with
  | nil => intro s h1 h2; exact ⟨h1, h2⟩
  | cons ev evs ih =>
    intro s h1 h2
    obtain ⟨a1, a2⟩ := tasksStep_stuck s ev message h1 h2
    rw [tasksRun_cons]
    exact ih _ a1 a2

/-- **C14** (the code at the failing inputs).  Two payloads are on their way when a write of
`writePump` fails: `writePump` returns, the next tick puts the writer at the send on
`SendQueue`, the read fails on the closed stream and the hub unregisters the connection and
closes `Send`.  Teardown is then complete, `readPump` and `writePump` have returned, and the
writer stands at its send with nobody left to receive: whatever happens afterwards it never
moves again.  The same end is reached when the teardown starts with a failing read. -/
theorem C14_writer_left_blocked (later : List TaskEvent) :
    (tasksRun tasksStart
      [TaskEvent.hubBroadcast [97], TaskEvent.hubBroadcast [98], TaskEvent.writerRecv,
       TaskEvent.writerRecv, TaskEvent.writerTick, TaskEvent.writePumpRecv false,
       TaskEvent.writerTick, TaskEvent.readFail, TaskEvent.hubUnregister]) =
      { registered := false, Send := { queue := [], closed := true }, buf := { unread := [] },
        writer := WriterPc.sending [98, 10], SendQueueClosed := false,
        writePumpReturned := true, reader := ReaderPc.returned, connClosed := true,
        wire := [], panicked := none } ∧
    (tasksRun tasksStart
      ([TaskEvent.hubBroadcast [97], TaskEvent.hubBroadcast [98], TaskEvent.writerRecv,
        TaskEvent.writerRecv, TaskEvent.writerTick, TaskEvent.writePumpRecv false,
        TaskEvent.writerTick, TaskEvent.readFail, TaskEvent.hubUnregister]
        ++ later)).writer = WriterPc.sending [98, 10] ∧
    (tasksRun tasksStart
      ([TaskEvent.hubBroadcast [97], TaskEvent.hubBroadcast [98], TaskEvent.writerRecv,
        TaskEvent.writerRecv, TaskEvent.readFail, TaskEvent.hubUnregister,
        TaskEvent.writerTick, TaskEvent.writePumpRecv true, TaskEvent.writerTick]
        ++ later)).writer = WriterPc.sending [98, 10] ∧
    (tasksRun tasksStart
      [TaskEvent.hubBroadcast [97], TaskEvent.hubBroadcast [98], TaskEvent.writerRecv,
       TaskEvent.writerRecv, TaskEvent.readFail, TaskEvent.hubUnregister,
       TaskEvent.writerTick, TaskEvent.writePumpRecv true, TaskEvent.writerTick]) =
      { registered := false, Send := { queue := [], closed := true }, buf := { unread := [] },
        writer := WriterPc.sending [98, 10], SendQueueClosed := false,
        writePumpReturned := true, reader := ReaderPc.returned, connClosed := true,
        wire := [], panicked := none } := by
  have h1 : (tasksRun tasksStart
      [TaskEvent.hubBroadcast [97], TaskEvent.hubBroadcast [98], TaskEvent.writerRecv,
       TaskEvent.writerRecv, TaskEvent.writerTick, TaskEvent.writePumpRecv false,
       TaskEvent.writerTick, TaskEvent.readFail, TaskEvent.hubUnregister]) =
      { registered := false, Send := { queue := [], closed := true }, buf := { unread := [] },
        writer := WriterPc.sending [98, 10], SendQueueClosed := false,
        writePumpReturned := true, reader := ReaderPc.returned, connClosed := true,
        wire := [], panicked := none } := by decide
  have h2 : (tasksRun tasksStart
      [TaskEvent.hubBroadcast [97], TaskEvent.hubBroadcast [98], TaskEvent.writerRecv,
       TaskEvent.writerRecv, TaskEvent.readFail, TaskEvent.hubUnregister,
       TaskEvent.writerTick, TaskEvent.writePumpRecv true, TaskEvent.writerTick]) =
      { registered := false, Send := { queue := [], closed := true }, buf := { unread := [] },
        writer := WriterPc.sending [98, 10], SendQueueClosed := false,
        writePumpReturned := true, reader := ReaderPc.returned, connClosed := true,
        wire := [], panicked := none } := by decide
  refine ⟨h1, ?_, ?_, h2⟩
  · have e : ∀ pre : List TaskEvent, tasksRun tasksStart (pre ++ later) =
        tasksRun (tasksRun tasksStart pre) later := by
      intro pre; simp [tasksRun, List.foldl_append]
    rw [e, h1]
    exact (tasksRun_stuck [98, 10] later _ rfl rfl).2
  · have e : ∀ pre : List TaskEvent, tasksRun tasksStart (pre ++ later) =
        tasksRun (tasksRun tasksStart pre) later := by
      intro pre; simp [tasksRun, List.foldl_append]
    rw [e, h2]
    exact (tasksRun_stuck [98, 10] later _ rfl rfl).2

/-! ## The claim about the safety of the hub -/

/-- **C17** Hub safety invariant.  Start from a live hub in which every `Send` queue is open
(each connection is created with an open queue) and let a schedule register no connection
twice, nor one that is registered already; the hub loop is the only one to close `Send`
queues.  Then in the state reached every connection in `connections` has an open `Send`
queue, a connection whose queue is closed is not in `connections`, the hub has not
panicked, and a broadcast step taken next does not panic: it never sends on a closed
queue. -/
theorem C17_hub_safety (w0 : World) (as : List Action)
    (hlive : w0.panicked = none)
    (hcreated : ∀ c, (w0.Send c).closed = false)
    (honce : (registrations as).Nodup)
    (hfresh : ∀ c ∈ w0.hub.connections.keys, c ∉ registrations as) :
    (∀ c ∈ (run w0 as).hub.connections.keys, ((run w0 as).Send c).closed = false) ∧
    (∀ c, ((run w0 as).Send c).closed = true → c ∉ (run w0 as).hub.connections.keys) ∧
    (run w0 as).panicked = none ∧
    (step (run w0 as) Action.broadcast).panicked = none := by
  have h0 : HubSafe w0 (registrations as) := by
    refine ⟨hlive, ?_, hfresh⟩
    intro c hc
    rw [hcreated c] at hc
    exact absurd hc (by decide)
  have hsafe : HubSafe (run w0 as) [] := run_hubSafe as w0 h0 honce
  have hnext : HubSafe (step (run w0 as) Action.broadcast) (registrations []) :=
    step_hubSafe (run w0 as) Action.broadcast [] hsafe List.nodup_nil
  exact ⟨hubSafe_open _ _ hsafe, fun c hc => (hsafe.2.1 c hc).1, hsafe.1, hnext.1⟩

theorem C17_hub_safety_witness :
    New.panicked = none ∧ (∀ c, (New.Send c).closed = false) ∧
    (registrations [Action.register 0, Action.register 1, Action.Broadcast [112],
      Action.unregister 0, Action.broadcast, Action.unregister 0]).Nodup ∧
    (∀ c ∈ New.hub.connections.keys, c ∉ registrations [Action.register 0, Action.register 1,
      Action.Broadcast [112], Action.unregister 0, Action.broadcast, Action.unregister 0]) ∧
    (∀ c ∈ (run New [Action.register 0, Action.register 1, Action.Broadcast [112],
        Action.unregister 0, Action.broadcast, Action.unregister 0]).hub.connections.keys,
      ((run New [Action.register 0, Action.register 1, Action.Broadcast [112],
        Action.unregister 0, Action.broadcast, Action.unregister 0]).Send c).closed = false) :=
  ⟨rfl, fun _ => rfl, by decide, by decide,
    (C17_hub_safety New _ rfl (fun _ => rfl) (by decide) (by decide)).1⟩

end Websockets
